import Mathlib

/-!
Shallow embedding of the p2pBurger signaling server (`server.js`).

The server keeps a global `rooms` table: `Map<roomId, Map<peerId, WebSocket>>`.
Each WebSocket carries a `peerId` (assigned at connect) and a mutable
`currentRoomId`.  Since the WebSocket stored under a peerId key is always the
connection whose id is that key, we model a room's member map by its key list
(JS `Map` preserves insertion order and has unique keys) and keep the
per-connection state (`currentRoomId`, readyState) in a separate table
`conns : peerId -> ConnState`.

JS `Map` is modelled by an insertion-ordered association list with the exact
`get` / `set` / `delete` / `has` semantics.
-/

abbrev PeerId := String
abbrev RoomId := String

/-- Per-connection mutable state attached to a WebSocket:
`ws.currentRoomId` and whether `ws.readyState === WebSocket.OPEN`. -/
structure ConnState where
  currentRoomId : Option RoomId
  isOpen : Bool
deriving Repr, DecidableEq

/-- `Map.get` on an insertion-ordered association list. -/
def mapGet {κ α : Type} [DecidableEq κ] (m : List (κ × α)) (k : κ) : Option α :=
  match m with
  | [] => none
  | (k', v) :: rest => if k' = k then some v else mapGet rest k

/-- `Map.has`. -/
def mapHas {κ α : Type} [DecidableEq κ] (m : List (κ × α)) (k : κ) : Bool :=
  (mapGet m k).isSome

/-- `Map.set`: updates the existing entry in place (keeping its position) or
appends a fresh entry at the end, as a JS `Map` does. -/
def mapSet {κ α : Type} [DecidableEq κ] (m : List (κ × α)) (k : κ) (v : α) :
    List (κ × α) :=
  match m with
  | [] => [(k, v)]
  | (k', v') :: rest => if k' = k then (k, v) :: rest else (k', v') :: mapSet rest k v

/-- `Map.delete`: removes the (unique) entry with the given key. -/
def mapDelete {κ α : Type} [DecidableEq κ] (m : List (κ × α)) (k : κ) :
    List (κ × α) :=
  match m with
  | [] => []
  | (k', v') :: rest => if k' = k then rest else (k', v') :: mapDelete rest k

/-- The whole server state: the global `rooms` table (roomId → member peerIds
in insertion order) and the per-connection state table. -/
structure ServerState where
  rooms : List (RoomId × List PeerId)
  conns : List (PeerId × ConnState)
deriving Repr, DecidableEq

/-- Relay message types (`offer` / `answer` / `ice-candidate`). -/
inductive RelayType where
  | offer
  | answer
  | iceCandidate
deriving Repr, DecidableEq

/-- The structured record of an inbound relay message: its `type`, the
routing field `targetPeerId`, a possibly client-supplied `senderPeerId`,
and the remaining opaque payload fields (e.g. `sdp`, `candidate`). -/
structure RelayData where
  rtype : RelayType
  targetPeerId : Option String
  senderPeerId : Option String
  payload : List (String × String)
deriving Repr, DecidableEq

/-- Server-to-client messages, as produced by the `ws.send(JSON.stringify(...))`
calls in `server.js`. -/
inductive ServerMsg where
  | yourPeerId (peerId : PeerId)
  | existingPeers (roomId : RoomId) (peers : List PeerId)
  | newPeerJoined (roomId : RoomId) (newPeerId : PeerId)
  | joinedRoom (roomId : RoomId) (peerId : PeerId)
  | peerLeft (roomId : RoomId) (leavingPeerId : PeerId) (message : String)
  | error (message : String)
  | relay (d : RelayData)
deriving Repr, DecidableEq

/-- Parsed client-to-server input: unparseable JSON, a `join-room` (whose
`roomId` field may be absent), a relay message, or an unrecognized type. -/
inductive ClientMsg where
  | invalidJson
  | joinRoom (roomId : Option RoomId)
  | relayMsg (d : RelayData)
  | unknown (ty : String)
deriving Repr, DecidableEq

/-- JS truthiness of an optional string field: `undefined`/missing and `""`
are falsy. -/
def truthy : Option String → Bool
  | none => false
  | some s => !s.isEmpty

/-- `client.readyState === WebSocket.OPEN` for the connection with this id. -/
def isOpenIn (st : ServerState) (pid : PeerId) : Bool :=
  match mapGet st.conns pid with
  | some cs => cs.isOpen
  | none => false

/-- The member list of a room (empty when the room is not in the table). -/
def roomMembers (st : ServerState) (rid : RoomId) : List PeerId :=
  (mapGet st.rooms rid).getD []

/-- The text of the `peer-left` notification (`server.js` line 170). -/
def peerLeftText (pid : PeerId) : String :=
  "Peer " ++ pid ++ " has disconnected."

/-- `leaveRoom(ws)` (`server.js` lines 153-178): if the client has a truthy
`currentRoomId` naming a room in the table, remove it from that room's member
map; delete the room if now empty, otherwise notify each remaining open member
with `peer-left`; finally clear `currentRoomId`.  Returns the new state and
the list of (destination, message) sends performed. -/
def leaveRoom (st : ServerState) (pid : PeerId) :
    ServerState × List (PeerId × ServerMsg) :=
  match mapGet st.conns pid with
  | none => (st, [])
  | some cs =>
    match cs.currentRoomId with
    | none => (st, [])
    | some rid =>
      if rid.isEmpty then (st, [])
      else
        match mapGet st.rooms rid with
        | none => (st, [])
        | some members =>
          let members' := members.filter (fun m => m ≠ pid)
          let rooms' := if members'.isEmpty then mapDelete st.rooms rid
                        else mapSet st.rooms rid members'
          let msgs := if members'.isEmpty then ([] : List (PeerId × ServerMsg))
            else members'.filterMap (fun m =>
              if isOpenIn st m then
                some (m, ServerMsg.peerLeft rid pid (peerLeftText pid))
              else none)
          ({ rooms := rooms',
             conns := mapSet st.conns pid { cs with currentRoomId := none } },
           msgs)

/-- Lines 57-60 of the `join-room` case: if the peer is already in a
different room, leave that room first. -/
def switchLeave (st : ServerState) (pid : PeerId) (rid : RoomId) :
    ServerState × List (PeerId × ServerMsg) :=
  let cur := (mapGet st.conns pid).bind (fun cs => cs.currentRoomId)
  if truthy cur ∧ cur ≠ some rid then leaveRoom st pid else (st, [])

/-- Lines 62-96 of the `join-room` case, after the possible leave: set
`currentRoomId`, create the room if absent, send the pre-insertion member
list to the joiner when non-empty, insert the joiner, notify the other
(open) members with `new-peer-joined`, and confirm with `joined-room`. -/
def joinRoomCore (st : ServerState) (pid : PeerId) (rid : RoomId) :
    ServerState × List (PeerId × ServerMsg) :=
  let conns1 := match mapGet st.conns pid with
    | some cs => mapSet st.conns pid { cs with currentRoomId := some rid }
    | none => st.conns
  let rooms1 := if mapHas st.rooms rid then st.rooms else mapSet st.rooms rid []
  let members := (mapGet rooms1 rid).getD []
  let msgsExisting := if members.length > 0
    then [(pid, ServerMsg.existingPeers rid members)]
    else ([] : List (PeerId × ServerMsg))
  let members' := if members.contains pid then members else members ++ [pid]
  let rooms2 := mapSet rooms1 rid members'
  let st2 : ServerState := { rooms := rooms2, conns := conns1 }
  let msgsNotify := members'.filterMap (fun m =>
    if m = pid then none
    else if isOpenIn st2 m then some (m, ServerMsg.newPeerJoined rid pid)
    else none)
  (st2, msgsExisting ++ msgsNotify ++ [(pid, ServerMsg.joinedRoom rid pid)])

/-- The full `join-room` case (lines 49-97): validate `roomId`, possibly
leave the previous room, then run the join sequence. -/
def handleJoinRoom (st : ServerState) (pid : PeerId) (roomId : Option RoomId) :
    ServerState × List (PeerId × ServerMsg) :=
  if truthy roomId = false then
    (st, [(pid, ServerMsg.error "Room ID is required.")])
  else
    let rid := roomId.getD ""
    let p1 := switchLeave st pid rid
    let p2 := joinRoomCore p1.1 pid rid
    (p2.1, p1.2 ++ p2.2)

/-- The `offer` / `answer` / `ice-candidate` case (lines 99-130): require a
truthy `targetPeerId`; require the sender to have a truthy `currentRoomId`
that is in the rooms table; look the target up in that room and require it to
be open; then forward `{...data, senderPeerId}` to the target, otherwise
reply an error to the sender. -/
def handleRelay (st : ServerState) (pid : PeerId) (d : RelayData) :
    ServerState × List (PeerId × ServerMsg) :=
  if truthy d.targetPeerId = false then
    (st, [(pid, ServerMsg.error "Signaling message requires a targetPeerId.")])
  else
    let target := d.targetPeerId.getD ""
    let cur := (mapGet st.conns pid).bind (fun cs => cs.currentRoomId)
    if truthy cur ∧ mapHas st.rooms (cur.getD "") then
      let members := roomMembers st (cur.getD "")
      if members.contains target ∧ isOpenIn st target then
        (st, [(target, ServerMsg.relay { d with senderPeerId := some pid })])
      else
        (st, [(pid, ServerMsg.error
          ("Target peer " ++ target ++ " not found or not available."))])
    else
      (st, [(pid, ServerMsg.error
        "You are not in a valid room to send signaling data.")])

/-- The whole `ws.on('message', ...)` handler (lines 36-136). -/
def handleMessage (st : ServerState) (pid : PeerId) (m : ClientMsg) :
    ServerState × List (PeerId × ServerMsg) :=
  match m with
  | .invalidJson => (st, [(pid, ServerMsg.error "Invalid JSON message.")])
  | .joinRoom roomId => handleJoinRoom st pid roomId
  | .relayMsg d => handleRelay st pid d
  | .unknown ty => (st, [(pid, ServerMsg.error ("Unknown message type: " ++ ty))])

/-- `wss.on('connection', ...)` (lines 25-34): register a fresh peer id with
no room and an open socket, and send it `your-peer-id`. -/
def handleConnect (st : ServerState) (pid : PeerId) :
    ServerState × List (PeerId × ServerMsg) :=
  ({ rooms := st.rooms,
     conns := mapSet st.conns pid { currentRoomId := none, isOpen := true } },
   [(pid, ServerMsg.yourPeerId pid)])

/-- `ws.on('close', ...)` (lines 138-141): the socket is no longer open;
run `leaveRoom`. -/
def handleClose (st : ServerState) (pid : PeerId) :
    ServerState × List (PeerId × ServerMsg) :=
  let conns1 := match mapGet st.conns pid with
    | some cs => mapSet st.conns pid { cs with isOpen := false }
    | none => st.conns
  leaveRoom { rooms := st.rooms, conns := conns1 } pid

/-- `ws.on('error', ...)` (lines 143-146): run `leaveRoom`. -/
def handleSocketError (st : ServerState) (pid : PeerId) :
    ServerState × List (PeerId × ServerMsg) :=
  leaveRoom st pid

/-- A connection-level event dispatched to the server. -/
inductive Event where
  | connect (pid : PeerId)
  | message (pid : PeerId) (m : ClientMsg)
  | close (pid : PeerId)
  | socketError (pid : PeerId)
deriving Repr, DecidableEq

/-- One step of the event loop. -/
def step (st : ServerState) (e : Event) : ServerState × List (PeerId × ServerMsg) :=
  match e with
  | .connect pid => handleConnect st pid
  | .message pid m => handleMessage st pid m
  | .close pid => handleClose st pid
  | .socketError pid => handleSocketError st pid

/-- Run a sequence of events, keeping only the state. -/
def run (st : ServerState) (es : List Event) : ServerState :=
  match es with
  | [] => st
  | e :: rest => run (step st e).1 rest

/-- The server's initial state: no rooms, no connections. -/
def initState : ServerState := { rooms := [], conns := [] }

/-- Environment assumptions on an event: a `connect` carries a fresh,
non-empty peer id (uuidv4), and messages come from registered connections. -/
def eventOK (st : ServerState) : Event → Prop
  | .connect pid => mapGet st.conns pid = none ∧ pid ≠ ""
  | .message pid _ => (mapGet st.conns pid).isSome = true
  | .close _ => True
  | .socketError _ => True

/-- Environment assumptions along a whole event sequence. -/
def eventsOK : ServerState → List Event → Prop
  | _, [] => True
  | st, e :: es => eventOK st e ∧ eventsOK (step st e).1 es

/-! ### Association-list (JS `Map`) lemmas -/

theorem mapGet_mapSet_self {κ α : Type} [DecidableEq κ]
    (m : List (κ × α)) (k : κ) (v : α) :
    mapGet (mapSet m k v) k = some v := by
  induction m with
  | nil => simp [mapGet, mapSet]
  | cons p rest ih =>
    by_cases h : p.1 = k
    · simp [mapGet, mapSet, h]
    · simp [mapGet, mapSet, h, ih]

theorem mapGet_mapSet_ne {κ α : Type} [DecidableEq κ]
    (m : List (κ × α)) (k k' : κ) (v : α) (h : k' ≠ k) :
    mapGet (mapSet m k v) k' = mapGet m k' := by
  induction m with
  | nil => simp [mapGet, mapSet, if_neg (Ne.symm h)]
  | cons p rest ih =>
    obtain ⟨pk, pv⟩ := p
    by_cases hk : pk = k
    · subst hk
      simp [mapGet, mapSet, if_neg (Ne.symm h)]
    · by_cases hk' : pk = k'
      · subst hk'
        simp [mapGet, mapSet, if_neg h]
      · simp [mapGet, mapSet, hk, hk', ih]

theorem mapGet_mapDelete_ne {κ α : Type} [DecidableEq κ]
    (m : List (κ × α)) (k k' : κ) (h : k' ≠ k) :
    mapGet (mapDelete m k) k' = mapGet m k' := by
  induction m with
  | nil => simp [mapDelete]
  | cons p rest ih =>
    obtain ⟨pk, pv⟩ := p
    by_cases hk : pk = k
    · subst hk
      simp [mapGet, mapDelete, if_neg (Ne.symm h)]
    · simp [mapGet, mapDelete, hk, ih]

theorem mapGet_mem_keys {κ α : Type} [DecidableEq κ]
    (m : List (κ × α)) (k : κ) (v : α) (h : mapGet m k = some v) :
    k ∈ m.map Prod.fst := by
  induction m with
  | nil => simp [mapGet] at h
  | cons p rest ih =>
    by_cases hk : p.1 = k
    · simp [hk]
    · simp only [mapGet, if_neg hk] at h
      simp [ih h]

theorem mapGet_mapDelete_self {κ α : Type} [DecidableEq κ]
    (m : List (κ × α)) (k : κ) (hnd : (m.map Prod.fst).Nodup) :
    mapGet (mapDelete m k) k = none := by
  induction m with
  | nil => simp [mapGet, mapDelete]
  | cons p rest ih =>
    simp only [List.map_cons, List.nodup_cons] at hnd
    by_cases hk : p.1 = k
    · subst hk
      simp only [mapDelete, if_pos rfl]
      rcases hg : mapGet rest p.1 with _ | v
      · exact hg
      · exact absurd (mapGet_mem_keys rest p.1 v hg) hnd.1
    · simp [mapGet, mapDelete, hk, ih hnd.2]

theorem mapHas_iff {κ α : Type} [DecidableEq κ] (m : List (κ × α)) (k : κ) :
    mapHas m k = true ↔ ∃ v, mapGet m k = some v := by
  unfold mapHas
  rcases h : mapGet m k with _ | v <;> simp [h]

theorem keys_mapSet_mem {κ α : Type} [DecidableEq κ]
    (m : List (κ × α)) (k : κ) (v : α) (h : k ∈ m.map Prod.fst) :
    (mapSet m k v).map Prod.fst = m.map Prod.fst := by
  induction m with
  | nil => simp at h
  | cons p rest ih =>
    by_cases hk : p.1 = k
    · simp [mapSet, hk]
    · simp only [List.map_cons, List.mem_cons] at h
      rcases h with h | h
      · exact absurd h.symm hk
      · simp [mapSet, hk, ih h]

theorem keys_mapSet_not_mem {κ α : Type} [DecidableEq κ]
    (m : List (κ × α)) (k : κ) (v : α) (h : k ∉ m.map Prod.fst) :
    (mapSet m k v).map Prod.fst = m.map Prod.fst ++ [k] := by
  induction m with
  | nil => simp [mapSet]
  | cons p rest ih =>
    obtain ⟨pk, pv⟩ := p
    simp only [List.map_cons, List.mem_cons] at h
    push_neg at h
    simp [mapSet, if_neg (Ne.symm h.1), ih h.2]

theorem keys_mapDelete_sublist {κ α : Type} [DecidableEq κ]
    (m : List (κ × α)) (k : κ) :
    ((mapDelete m k).map Prod.fst).Sublist (m.map Prod.fst) := by
  induction m with
  | nil => simp [mapDelete]
  | cons p rest ih =>
    by_cases hk : p.1 = k
    · simp only [mapDelete, if_pos hk, List.map_cons]
      exact (List.sublist_cons_self _ _)
    · simp only [mapDelete, if_neg hk, List.map_cons]
      exact ih.cons₂ p.1

theorem mem_keys_isSome {κ α : Type} [DecidableEq κ]
    (m : List (κ × α)) (k : κ) (h : k ∈ m.map Prod.fst) :
    (mapGet m k).isSome = true := by
  induction m with
  | nil => simp at h
  | cons p rest ih =>
    by_cases hk : p.1 = k
    · simp [mapGet, hk]
    · simp only [List.map_cons, List.mem_cons] at h
      rcases h with h | h
      · exact absurd h.symm hk
      · simp [mapGet, hk, ih h]

theorem mapSet_eq_of_get {κ α : Type} [DecidableEq κ]
    (m : List (κ × α)) (k : κ) (v : α) (h : mapGet m k = some v) :
    mapSet m k v = m := by
  induction m with
  | nil => simp [mapGet] at h
  | cons p rest ih =>
    obtain ⟨pk, pv⟩ := p
    by_cases hk : pk = k
    · subst hk
      simp only [mapGet, if_pos rfl] at h
      obtain rfl := Option.some.inj h
      simp [mapSet]
    · simp only [mapGet, if_neg hk] at h
      simp [mapSet, hk, ih h]

/-! ### The server's inductive invariant

Every piece is either a structural fact about the two tables or one of the
spec's data-model invariants; all are established for `initState` and
preserved by every event. -/

structure ServerInv (st : ServerState) : Prop where
  roomsKeys : (st.rooms.map Prod.fst).Nodup
  roomsNE : ∀ rid ms, mapGet st.rooms rid = some ms → ms ≠ []
  roomsND : ∀ rid ms, mapGet st.rooms rid = some ms → ms.Nodup
  ridNE : ∀ rid ms, mapGet st.rooms rid = some ms → rid ≠ ""
  pidNE : ∀ pid cs, mapGet st.conns pid = some cs → pid ≠ ""
  memConn : ∀ rid ms pid, mapGet st.rooms rid = some ms → pid ∈ ms →
      ∃ cs, mapGet st.conns pid = some cs ∧ cs.currentRoomId = some rid
  curMem : ∀ pid cs rid, mapGet st.conns pid = some cs →
      cs.currentRoomId = some rid →
      ∃ ms, mapGet st.rooms rid = some ms ∧ pid ∈ ms

theorem inv_initState : ServerInv initState := by
  constructor <;> simp [initState, mapGet]

theorem str_isEmpty_false {s : String} (h : s ≠ "") : s.isEmpty = false := by
  rcases hb : s.isEmpty with _ | _
  · rfl
  · exact absurd ((String.isEmpty_iff s).mp hb) h

/-! ### `leaveRoom` characterization -/

theorem leaveRoom_no_conn (st : ServerState) (pid : PeerId)
    (h : mapGet st.conns pid = none) : leaveRoom st pid = (st, []) := by
  simp [leaveRoom, h]

theorem leaveRoom_no_cur (st : ServerState) (pid : PeerId) (cs : ConnState)
    (hc : mapGet st.conns pid = some cs) (h : cs.currentRoomId = none) :
    leaveRoom st pid = (st, []) := by
  simp [leaveRoom, hc, h]

theorem leaveRoom_empty_rid (st : ServerState) (pid : PeerId) (cs : ConnState)
    (rid : RoomId) (hc : mapGet st.conns pid = some cs)
    (hcur : cs.currentRoomId = some rid) (h : rid.isEmpty = true) :
    leaveRoom st pid = (st, []) := by
  simp [leaveRoom, hc, hcur, h]

theorem leaveRoom_no_room (st : ServerState) (pid : PeerId) (cs : ConnState)
    (rid : RoomId) (hc : mapGet st.conns pid = some cs)
    (hcur : cs.currentRoomId = some rid) (hrid : rid.isEmpty = false)
    (h : mapGet st.rooms rid = none) :
    leaveRoom st pid = (st, []) := by
  simp [leaveRoom, hc, hcur, hrid, h]

theorem leaveRoom_active (st : ServerState) (pid : PeerId) (cs : ConnState)
    (rid : RoomId) (members : List PeerId)
    (hc : mapGet st.conns pid = some cs)
    (hcur : cs.currentRoomId = some rid) (hrid : rid.isEmpty = false)
    (hm : mapGet st.rooms rid = some members) :
    leaveRoom st pid =
      ({ rooms :=
           if (members.filter (fun m => m ≠ pid)).isEmpty then
             mapDelete st.rooms rid
           else mapSet st.rooms rid (members.filter (fun m => m ≠ pid)),
         conns := mapSet st.conns pid { cs with currentRoomId := none } },
       if (members.filter (fun m => m ≠ pid)).isEmpty then []
       else (members.filter (fun m => m ≠ pid)).filterMap (fun m =>
         if isOpenIn st m then
           some (m, ServerMsg.peerLeft rid pid (peerLeftText pid))
         else none)) := by
  simp [leaveRoom, hc, hcur, hrid, hm]

theorem leaveRoom_active_empty (st : ServerState) (pid : PeerId) (cs : ConnState)
    (rid : RoomId) (members : List PeerId)
    (hc : mapGet st.conns pid = some cs)
    (hcur : cs.currentRoomId = some rid) (hrid : rid.isEmpty = false)
    (hm : mapGet st.rooms rid = some members)
    (hemp : members.filter (fun m => m ≠ pid) = []) :
    leaveRoom st pid =
      ({ rooms := mapDelete st.rooms rid,
         conns := mapSet st.conns pid { cs with currentRoomId := none } },
       []) := by
  rw [leaveRoom_active st pid cs rid members hc hcur hrid hm]
  have hb : (members.filter (fun m => m ≠ pid)).isEmpty = true := by
    rw [hemp]; rfl
  simp only [if_pos hb]

theorem leaveRoom_active_ne (st : ServerState) (pid : PeerId) (cs : ConnState)
    (rid : RoomId) (members : List PeerId)
    (hc : mapGet st.conns pid = some cs)
    (hcur : cs.currentRoomId = some rid) (hrid : rid.isEmpty = false)
    (hm : mapGet st.rooms rid = some members)
    (hemp : members.filter (fun m => m ≠ pid) ≠ []) :
    leaveRoom st pid =
      ({ rooms := mapSet st.rooms rid (members.filter (fun m => m ≠ pid)),
         conns := mapSet st.conns pid { cs with currentRoomId := none } },
       (members.filter (fun m => m ≠ pid)).filterMap (fun m =>
         if isOpenIn st m then
           some (m, ServerMsg.peerLeft rid pid (peerLeftText pid))
         else none)) := by
  rw [leaveRoom_active st pid cs rid members hc hcur hrid hm]
  have hn : ¬((members.filter (fun m => m ≠ pid)).isEmpty = true) := by
    rcases hi : (members.filter (fun m => m ≠ pid)).isEmpty with _ | _
    · simp
    · exact absurd (List.isEmpty_iff.mp hi) hemp
  simp only [if_neg hn]

theorem mapSet_mapSet {κ α : Type} [DecidableEq κ]
    (m : List (κ × α)) (k : κ) (v w : α) :
    mapSet (mapSet m k v) k w = mapSet m k w := by
  induction m with
  | nil => simp [mapSet]
  | cons p rest ih =>
    obtain ⟨pk, pv⟩ := p
    by_cases hk : pk = k
    · subst hk
      simp [mapSet]
    · simp [mapSet, hk, ih]

theorem str_ne_of_isEmpty_false {s : String} (h : s.isEmpty = false) : s ≠ "" := by
  intro he
  subst he
  exact absurd h (by decide)

theorem inv_leaveRoom (st : ServerState) (pid : PeerId) (h : ServerInv st) :
    ServerInv (leaveRoom st pid).1 := by
  rcases hc : mapGet st.conns pid with _ | cs
  · rw [leaveRoom_no_conn st pid hc]; exact h
  · rcases hcur : cs.currentRoomId with _ | rid
    · rw [leaveRoom_no_cur st pid cs hc hcur]; exact h
    · rcases hrid : rid.isEmpty with _ | _
      · rcases hm : mapGet st.rooms rid with _ | members
        · rw [leaveRoom_no_room st pid cs rid hc hcur hrid hm]; exact h
        · by_cases he : members.filter (fun m => m ≠ pid) = []
          · -- the room becomes empty and is deleted
            rw [leaveRoom_active_empty st pid cs rid members hc hcur hrid hm he]
            refine ⟨?_, ?_, ?_, ?_, ?_, ?_, ?_⟩
            · exact List.Nodup.sublist (keys_mapDelete_sublist _ _) h.roomsKeys
            · intro r ms hg
              by_cases hr : r = rid
              · subst hr
                rw [mapGet_mapDelete_self _ _ h.roomsKeys] at hg
                cases hg
              · rw [mapGet_mapDelete_ne _ _ _ hr] at hg
                exact h.roomsNE r ms hg
            · intro r ms hg
              by_cases hr : r = rid
              · subst hr
                rw [mapGet_mapDelete_self _ _ h.roomsKeys] at hg
                cases hg
              · rw [mapGet_mapDelete_ne _ _ _ hr] at hg
                exact h.roomsND r ms hg
            · intro r ms hg
              by_cases hr : r = rid
              · subst hr
                rw [mapGet_mapDelete_self _ _ h.roomsKeys] at hg
                cases hg
              · rw [mapGet_mapDelete_ne _ _ _ hr] at hg
                exact h.ridNE r ms hg
            · intro q cs' hg
              by_cases hq : q = pid
              · subst hq
                exact h.pidNE q cs hc
              · rw [mapGet_mapSet_ne _ _ _ _ hq] at hg
                exact h.pidNE q cs' hg
            · intro r ms q hg hqm
              by_cases hr : r = rid
              · subst hr
                rw [mapGet_mapDelete_self _ _ h.roomsKeys] at hg
                cases hg
              · rw [mapGet_mapDelete_ne _ _ _ hr] at hg
                obtain ⟨cs', hcs', hcur'⟩ := h.memConn r ms q hg hqm
                have hq : q ≠ pid := by
                  intro hqe
                  subst hqe
                  rw [hc] at hcs'
                  obtain rfl := Option.some.inj hcs'
                  rw [hcur] at hcur'
                  exact hr (Option.some.inj hcur').symm
                rw [← mapGet_mapSet_ne st.conns pid q
                  { cs with currentRoomId := none } hq] at hcs'
                exact ⟨cs', hcs', hcur'⟩
            · intro q cs' r hg hcur'
              by_cases hq : q = pid
              · subst hq
                rw [mapGet_mapSet_self] at hg
                obtain rfl := Option.some.inj hg
                simp at hcur'
              · rw [mapGet_mapSet_ne _ _ _ _ hq] at hg
                obtain ⟨ms, hms, hqm⟩ := h.curMem q cs' r hg hcur'
                by_cases hr : r = rid
                · subst hr
                  rw [hm] at hms
                  obtain rfl := Option.some.inj hms
                  have : q ∈ members.filter (fun m => m ≠ pid) :=
                    List.mem_filter.mpr ⟨hqm, by simp [hq]⟩
                  rw [he] at this
                  cases this
                · rw [← mapGet_mapDelete_ne st.rooms rid r hr] at hms
                  exact ⟨ms, hms, hqm⟩
          · -- the room keeps other members
            rw [leaveRoom_active_ne st pid cs rid members hc hcur hrid hm he]
            refine ⟨?_, ?_, ?_, ?_, ?_, ?_, ?_⟩
            · rw [keys_mapSet_mem _ _ _ (mapGet_mem_keys _ _ _ hm)]
              exact h.roomsKeys
            · intro r ms hg
              by_cases hr : r = rid
              · subst hr
                rw [mapGet_mapSet_self] at hg
                obtain rfl := Option.some.inj hg
                exact he
              · rw [mapGet_mapSet_ne _ _ _ _ hr] at hg
                exact h.roomsNE r ms hg
            · intro r ms hg
              by_cases hr : r = rid
              · subst hr
                rw [mapGet_mapSet_self] at hg
                obtain rfl := Option.some.inj hg
                exact (h.roomsND r members hm).filter _
              · rw [mapGet_mapSet_ne _ _ _ _ hr] at hg
                exact h.roomsND r ms hg
            · intro r ms hg
              by_cases hr : r = rid
              · subst hr
                exact str_ne_of_isEmpty_false hrid
              · rw [mapGet_mapSet_ne _ _ _ _ hr] at hg
                exact h.ridNE r ms hg
            · intro q cs' hg
              by_cases hq : q = pid
              · subst hq
                exact h.pidNE q cs hc
              · rw [mapGet_mapSet_ne _ _ _ _ hq] at hg
                exact h.pidNE q cs' hg
            · intro r ms q hg hqm
              by_cases hr : r = rid
              · subst hr
                rw [mapGet_mapSet_self] at hg
                obtain rfl := Option.some.inj hg
                obtain ⟨hq_mem, hq_ne⟩ := List.mem_filter.mp hqm
                have hq : q ≠ pid := by simpa using hq_ne
                obtain ⟨cs', hcs', hcur'⟩ := h.memConn r members q hm hq_mem
                rw [← mapGet_mapSet_ne st.conns pid q
                  { cs with currentRoomId := none } hq] at hcs'
                exact ⟨cs', hcs', hcur'⟩
              · rw [mapGet_mapSet_ne _ _ _ _ hr] at hg
                obtain ⟨cs', hcs', hcur'⟩ := h.memConn r ms q hg hqm
                have hq : q ≠ pid := by
                  intro hqe
                  subst hqe
                  rw [hc] at hcs'
                  obtain rfl := Option.some.inj hcs'
                  rw [hcur] at hcur'
                  exact hr (Option.some.inj hcur').symm
                rw [← mapGet_mapSet_ne st.conns pid q
                  { cs with currentRoomId := none } hq] at hcs'
                exact ⟨cs', hcs', hcur'⟩
            · intro q cs' r hg hcur'
              by_cases hq : q = pid
              · subst hq
                rw [mapGet_mapSet_self] at hg
                obtain rfl := Option.some.inj hg
                simp at hcur'
              · rw [mapGet_mapSet_ne _ _ _ _ hq] at hg
                obtain ⟨ms, hms, hqm⟩ := h.curMem q cs' r hg hcur'
                by_cases hr : r = rid
                · subst hr
                  rw [hm] at hms
                  obtain rfl := Option.some.inj hms
                  refine ⟨members.filter (fun m => m ≠ pid), mapGet_mapSet_self _ _ _, ?_⟩
                  exact List.mem_filter.mpr ⟨hqm, by simp [hq]⟩
                · rw [← mapGet_mapSet_ne st.rooms rid r _ hr] at hms
                  exact ⟨ms, hms, hqm⟩
      · rw [leaveRoom_empty_rid st pid cs rid hc hcur hrid]; exact h

/-! ### `joinRoomCore` characterization -/

theorem isOpenIn_set_ne (R : List (RoomId × List PeerId))
    (C : List (PeerId × ConnState)) (R' : List (RoomId × List PeerId))
    (p q : PeerId) (v : ConnState) (h : q ≠ p) :
    isOpenIn { rooms := R, conns := mapSet C p v } q
      = isOpenIn { rooms := R', conns := C } q := by
  simp [isOpenIn, mapGet_mapSet_ne _ _ _ _ h]

theorem joinRoomCore_empty (st : ServerState) (pid : PeerId) (rid : RoomId)
    (cs : ConnState) (hc : mapGet st.conns pid = some cs)
    (hroom : mapGet st.rooms rid = none ∨ mapGet st.rooms rid = some []) :
    joinRoomCore st pid rid =
      ({ rooms := mapSet st.rooms rid [pid],
         conns := mapSet st.conns pid { cs with currentRoomId := some rid } },
       [(pid, ServerMsg.joinedRoom rid pid)]) := by
  rcases hroom with hroom | hroom
  · have hhas : mapHas st.rooms rid = false := by simp [mapHas, hroom]
    simp [joinRoomCore, hc, hhas, mapGet_mapSet_self, mapSet_mapSet]
  · have hhas : mapHas st.rooms rid = true := by simp [mapHas, hroom]
    simp [joinRoomCore, hc, hhas, hroom]

theorem joinRoomCore_nonempty (st : ServerState) (pid : PeerId) (rid : RoomId)
    (cs : ConnState) (members : List PeerId)
    (hc : mapGet st.conns pid = some cs)
    (hroom : mapGet st.rooms rid = some members)
    (hne : members ≠ []) (hnm : pid ∉ members) :
    joinRoomCore st pid rid =
      ({ rooms := mapSet st.rooms rid (members ++ [pid]),
         conns := mapSet st.conns pid { cs with currentRoomId := some rid } },
       (pid, ServerMsg.existingPeers rid members) ::
         (members.filterMap (fun m =>
            if isOpenIn st m then some (m, ServerMsg.newPeerJoined rid pid)
            else none)
          ++ [(pid, ServerMsg.joinedRoom rid pid)])) := by
  have hhas : mapHas st.rooms rid = true := by simp [mapHas, hroom]
  have hlen : 0 < members.length := List.length_pos.mpr hne
  have hcongr : members.filterMap (fun m =>
      if m = pid then none
      else if isOpenIn { rooms := mapSet st.rooms rid (members ++ [pid]),
                         conns := mapSet st.conns pid
                           { cs with currentRoomId := some rid } } m then
        some (m, ServerMsg.newPeerJoined rid pid)
      else none) =
      members.filterMap (fun m =>
        if isOpenIn st m then some (m, ServerMsg.newPeerJoined rid pid)
        else none) := by
    apply List.filterMap_congr
    intro m hmem
    have hmp : m ≠ pid := fun e => hnm (e ▸ hmem)
    rw [if_neg hmp, isOpenIn_set_ne _ _ st.rooms _ _ _ hmp]
  simp [joinRoomCore, hc, hhas, hroom, hnm, hlen, hcongr]

theorem joinRoomCore_rejoin (st : ServerState) (pid : PeerId) (rid : RoomId)
    (cs : ConnState) (members : List PeerId)
    (hc : mapGet st.conns pid = some cs)
    (hroom : mapGet st.rooms rid = some members)
    (hmem : pid ∈ members) :
    joinRoomCore st pid rid =
      ({ rooms := st.rooms,
         conns := mapSet st.conns pid { cs with currentRoomId := some rid } },
       (pid, ServerMsg.existingPeers rid members) ::
         (members.filterMap (fun m =>
            if m = pid then none
            else if isOpenIn st m then some (m, ServerMsg.newPeerJoined rid pid)
            else none)
          ++ [(pid, ServerMsg.joinedRoom rid pid)])) := by
  have hhas : mapHas st.rooms rid = true := by simp [mapHas, hroom]
  have hlen : 0 < members.length := List.length_pos.mpr (List.ne_nil_of_mem hmem)
  have hset : mapSet st.rooms rid members = st.rooms := mapSet_eq_of_get _ _ _ hroom
  have hcongr : members.filterMap (fun m =>
      if m = pid then none
      else if isOpenIn { rooms := st.rooms,
                         conns := mapSet st.conns pid
                           { cs with currentRoomId := some rid } } m then
        some (m, ServerMsg.newPeerJoined rid pid)
      else none) =
      members.filterMap (fun m =>
        if m = pid then none
        else if isOpenIn st m then some (m, ServerMsg.newPeerJoined rid pid)
        else none) := by
    apply List.filterMap_congr
    intro m hmem'
    by_cases hmp : m = pid
    · simp [hmp]
    · rw [if_neg hmp, if_neg hmp, isOpenIn_set_ne _ _ st.rooms _ _ _ hmp]
  simp [joinRoomCore, hc, hhas, hroom, hmem, hlen, hset, hcongr]

/-! ### `switchLeave`, `handleJoinRoom`, `handleRelay` characterization -/

theorem switchLeave_no_conn (st : ServerState) (pid : PeerId) (rid : RoomId)
    (h : mapGet st.conns pid = none) :
    switchLeave st pid rid = (st, []) := by
  simp [switchLeave, h, truthy]

theorem switchLeave_none (st : ServerState) (pid : PeerId) (rid : RoomId)
    (cs : ConnState) (hc : mapGet st.conns pid = some cs)
    (hcur : cs.currentRoomId = none) :
    switchLeave st pid rid = (st, []) := by
  simp [switchLeave, hc, hcur, truthy]

theorem switchLeave_same (st : ServerState) (pid : PeerId) (rid : RoomId)
    (cs : ConnState) (hc : mapGet st.conns pid = some cs)
    (hcur : cs.currentRoomId = some rid) :
    switchLeave st pid rid = (st, []) := by
  simp [switchLeave, hc, hcur]

theorem switchLeave_other (st : ServerState) (pid : PeerId) (rid : RoomId)
    (cs : ConnState) (prev : RoomId) (hc : mapGet st.conns pid = some cs)
    (hcur : cs.currentRoomId = some prev) (hne : prev ≠ "") (hdiff : prev ≠ rid) :
    switchLeave st pid rid = leaveRoom st pid := by
  simp [switchLeave, hc, hcur, truthy, str_isEmpty_false hne, hdiff]

theorem handleJoinRoom_invalid (st : ServerState) (pid : PeerId)
    (roomId : Option RoomId) (h : truthy roomId = false) :
    handleJoinRoom st pid roomId =
      (st, [(pid, ServerMsg.error "Room ID is required.")]) := by
  simp [handleJoinRoom, h]

theorem handleJoinRoom_valid (st : ServerState) (pid : PeerId) (rid : RoomId)
    (h : rid ≠ "") :
    handleJoinRoom st pid (some rid) =
      ((joinRoomCore (switchLeave st pid rid).1 pid rid).1,
       (switchLeave st pid rid).2
         ++ (joinRoomCore (switchLeave st pid rid).1 pid rid).2) := by
  have ht : truthy (some rid) = true := by simp [truthy, str_isEmpty_false h]
  simp [handleJoinRoom, ht]

theorem handleRelay_no_target (st : ServerState) (pid : PeerId) (d : RelayData)
    (h : truthy d.targetPeerId = false) :
    handleRelay st pid d =
      (st, [(pid, ServerMsg.error "Signaling message requires a targetPeerId.")]) := by
  simp [handleRelay, h]

theorem handleRelay_fst (st : ServerState) (pid : PeerId) (d : RelayData) :
    (handleRelay st pid d).1 = st := by
  unfold handleRelay
  rcases truthy d.targetPeerId with _ | _
  · simp
  · simp only [Bool.true_eq_false, if_false]
    by_cases h1 : truthy ((mapGet st.conns pid).bind (fun cs => cs.currentRoomId)) ∧
        mapHas st.rooms (((mapGet st.conns pid).bind (fun cs => cs.currentRoomId)).getD "")
    · rw [if_pos h1]
      by_cases h2 : (roomMembers st
            (((mapGet st.conns pid).bind (fun cs => cs.currentRoomId)).getD "")).contains
            (d.targetPeerId.getD "") ∧ isOpenIn st (d.targetPeerId.getD "")
      · rw [if_pos h2]
      · rw [if_neg h2]
    · rw [if_neg h1]

/-! ### Invariant preservation for the remaining handlers -/

theorem leaveRoom_conn_cleared (st : ServerState) (pid : PeerId) (cs : ConnState)
    (rid : RoomId) (h : ServerInv st) (hc : mapGet st.conns pid = some cs)
    (hcur : cs.currentRoomId = some rid) :
    mapGet (leaveRoom st pid).1.conns pid = some { cs with currentRoomId := none } := by
  obtain ⟨ms, hms, _⟩ := h.curMem pid cs rid hc hcur
  have hrid : rid ≠ "" := h.ridNE rid ms hms
  by_cases hemp : ms.filter (fun m => m ≠ pid) = []
  · rw [leaveRoom_active_empty st pid cs rid ms hc hcur (str_isEmpty_false hrid) hms hemp]
    exact mapGet_mapSet_self _ _ _
  · rw [leaveRoom_active_ne st pid cs rid ms hc hcur (str_isEmpty_false hrid) hms hemp]
    exact mapGet_mapSet_self _ _ _

theorem inv_joinRoomCore_fresh (st : ServerState) (pid : PeerId) (rid : RoomId)
    (cs : ConnState) (h : ServerInv st)
    (hc : mapGet st.conns pid = some cs) (hcur : cs.currentRoomId = none)
    (hrid : rid ≠ "") : ServerInv (joinRoomCore st pid rid).1 := by
  have hnotmem : ∀ r ms, mapGet st.rooms r = some ms → pid ∉ ms := by
    intro r ms hms hmem
    obtain ⟨cs', hcs', hcur'⟩ := h.memConn r ms pid hms hmem
    rw [hc] at hcs'
    obtain rfl := Option.some.inj hcs'
    rw [hcur] at hcur'
    cases hcur'
  rcases hroom : mapGet st.rooms rid with _ | members
  · rw [joinRoomCore_empty st pid rid cs hc (Or.inl hroom)]
    have hnk : rid ∉ st.rooms.map Prod.fst := by
      intro hmem
      have hs := mem_keys_isSome st.rooms rid hmem
      rw [hroom] at hs
      cases hs
    refine ⟨?_, ?_, ?_, ?_, ?_, ?_, ?_⟩
    · rw [keys_mapSet_not_mem _ _ _ hnk]
      simp [List.nodup_append, h.roomsKeys, hnk]
    · intro r ms hg
      by_cases hr : r = rid
      · subst hr
        rw [mapGet_mapSet_self] at hg
        obtain rfl := Option.some.inj hg
        simp
      · rw [mapGet_mapSet_ne _ _ _ _ hr] at hg
        exact h.roomsNE r ms hg
    · intro r ms hg
      by_cases hr : r = rid
      · subst hr
        rw [mapGet_mapSet_self] at hg
        obtain rfl := Option.some.inj hg
        simp
      · rw [mapGet_mapSet_ne _ _ _ _ hr] at hg
        exact h.roomsND r ms hg
    · intro r ms hg
      by_cases hr : r = rid
      · subst hr
        exact hrid
      · rw [mapGet_mapSet_ne _ _ _ _ hr] at hg
        exact h.ridNE r ms hg
    · intro q cs' hg
      by_cases hq : q = pid
      · subst hq
        exact h.pidNE q cs hc
      · rw [mapGet_mapSet_ne _ _ _ _ hq] at hg
        exact h.pidNE q cs' hg
    · intro r ms q hg hqm
      by_cases hr : r = rid
      · subst hr
        rw [mapGet_mapSet_self] at hg
        obtain rfl := Option.some.inj hg
        have hq : q = pid := by simpa using hqm
        subst hq
        exact ⟨{ cs with currentRoomId := some r }, mapGet_mapSet_self _ _ _, rfl⟩
      · rw [mapGet_mapSet_ne _ _ _ _ hr] at hg
        obtain ⟨cs', hcs', hcur'⟩ := h.memConn r ms q hg hqm
        have hq : q ≠ pid := by
          intro hqe
          subst hqe
          rw [hc] at hcs'
          obtain rfl := Option.some.inj hcs'
          rw [hcur] at hcur'
          cases hcur'
        rw [← mapGet_mapSet_ne st.conns pid q
          { cs with currentRoomId := some rid } hq] at hcs'
        exact ⟨cs', hcs', hcur'⟩
    · intro q cs' r hg hcur'
      by_cases hq : q = pid
      · subst hq
        rw [mapGet_mapSet_self] at hg
        obtain rfl := Option.some.inj hg
        simp only at hcur'
        obtain rfl := Option.some.inj hcur'
        exact ⟨[q], mapGet_mapSet_self _ _ _, by simp⟩
      · rw [mapGet_mapSet_ne _ _ _ _ hq] at hg
        obtain ⟨ms, hms, hqm⟩ := h.curMem q cs' r hg hcur'
        by_cases hr : r = rid
        · subst hr
          rw [hroom] at hms
          cases hms
        · rw [← mapGet_mapSet_ne st.rooms rid r _ hr] at hms
          exact ⟨ms, hms, hqm⟩
  · have hne : members ≠ [] := h.roomsNE rid members hroom
    have hnm : pid ∉ members := hnotmem rid members hroom
    rw [joinRoomCore_nonempty st pid rid cs members hc hroom hne hnm]
    refine ⟨?_, ?_, ?_, ?_, ?_, ?_, ?_⟩
    · rw [keys_mapSet_mem _ _ _ (mapGet_mem_keys _ _ _ hroom)]
      exact h.roomsKeys
    · intro r ms hg
      by_cases hr : r = rid
      · subst hr
        rw [mapGet_mapSet_self] at hg
        obtain rfl := Option.some.inj hg
        simp
      · rw [mapGet_mapSet_ne _ _ _ _ hr] at hg
        exact h.roomsNE r ms hg
    · intro r ms hg
      by_cases hr : r = rid
      · subst hr
        rw [mapGet_mapSet_self] at hg
        obtain rfl := Option.some.inj hg
        simp [List.nodup_append, h.roomsND r members hroom, hnm]
      · rw [mapGet_mapSet_ne _ _ _ _ hr] at hg
        exact h.roomsND r ms hg
    · intro r ms hg
      by_cases hr : r = rid
      · subst hr
        exact hrid
      · rw [mapGet_mapSet_ne _ _ _ _ hr] at hg
        exact h.ridNE r ms hg
    · intro q cs' hg
      by_cases hq : q = pid
      · subst hq
        exact h.pidNE q cs hc
      · rw [mapGet_mapSet_ne _ _ _ _ hq] at hg
        exact h.pidNE q cs' hg
    · intro r ms q hg hqm
      by_cases hr : r = rid
      · subst hr
        rw [mapGet_mapSet_self] at hg
        obtain rfl := Option.some.inj hg
        rcases List.mem_append.mp hqm with hq_mem | hq_pid
        · obtain ⟨cs', hcs', hcur'⟩ := h.memConn r members q hroom hq_mem
          have hq : q ≠ pid := fun e => hnm (e ▸ hq_mem)
          rw [← mapGet_mapSet_ne st.conns pid q
            { cs with currentRoomId := some r } hq] at hcs'
          exact ⟨cs', hcs', hcur'⟩
        · have hq : q = pid := by simpa using hq_pid
          subst hq
          exact ⟨{ cs with currentRoomId := some r }, mapGet_mapSet_self _ _ _, rfl⟩
      · rw [mapGet_mapSet_ne _ _ _ _ hr] at hg
        obtain ⟨cs', hcs', hcur'⟩ := h.memConn r ms q hg hqm
        have hq : q ≠ pid := by
          intro hqe
          subst hqe
          rw [hc] at hcs'
          obtain rfl := Option.some.inj hcs'
          rw [hcur] at hcur'
          cases hcur'
        rw [← mapGet_mapSet_ne st.conns pid q
          { cs with currentRoomId := some rid } hq] at hcs'
        exact ⟨cs', hcs', hcur'⟩
    · intro q cs' r hg hcur'
      by_cases hq : q = pid
      · subst hq
        rw [mapGet_mapSet_self] at hg
        obtain rfl := Option.some.inj hg
        simp only at hcur'
        obtain rfl := Option.some.inj hcur'
        exact ⟨members ++ [q], mapGet_mapSet_self _ _ _, by simp⟩
      · rw [mapGet_mapSet_ne _ _ _ _ hq] at hg
        obtain ⟨ms, hms, hqm⟩ := h.curMem q cs' r hg hcur'
        by_cases hr : r = rid
        · subst hr
          rw [hroom] at hms
          have hmseq : members = ms := Option.some.inj hms
          subst hmseq
          exact ⟨members ++ [pid], mapGet_mapSet_self _ _ _, List.mem_append_left _ hqm⟩
        · rw [← mapGet_mapSet_ne st.rooms rid r _ hr] at hms
          exact ⟨ms, hms, hqm⟩

theorem inv_handleJoinRoom (st : ServerState) (pid : PeerId)
    (roomId : Option RoomId) (h : ServerInv st)
    (hp : (mapGet st.conns pid).isSome = true) :
    ServerInv (handleJoinRoom st pid roomId).1 := by
  rcases ht : truthy roomId with _ | _
  · rw [handleJoinRoom_invalid st pid roomId ht]
    exact h
  · rcases roomId with _ | rid
    · simp [truthy] at ht
    · have hrid : rid ≠ "" := by
        intro he
        subst he
        exact absurd ht (by decide)
      rw [handleJoinRoom_valid st pid rid hrid]
      obtain ⟨cs, hc⟩ := Option.isSome_iff_exists.mp hp
      rcases hcur : cs.currentRoomId with _ | prev
      · rw [switchLeave_none st pid rid cs hc hcur]
        exact inv_joinRoomCore_fresh st pid rid cs h hc hcur hrid
      · by_cases hsame : prev = rid
        · rw [hsame] at hcur
          rw [switchLeave_same st pid rid cs hc hcur]
          obtain ⟨ms, hms, hmem⟩ := h.curMem pid cs rid hc hcur
          rw [joinRoomCore_rejoin st pid rid cs ms hc hms hmem]
          have hcs_eq : ({ cs with currentRoomId := some rid } : ConnState) = cs := by
            cases cs
            simp only at hcur
            simp [hcur]
          rw [hcs_eq, mapSet_eq_of_get _ _ _ hc]
          exact h
        · obtain ⟨ms, hms, _⟩ := h.curMem pid cs prev hc hcur
          have hprevne : prev ≠ "" := h.ridNE prev ms hms
          rw [switchLeave_other st pid rid cs prev hc hcur hprevne hsame]
          have h1 := inv_leaveRoom st pid h
          have hc1 := leaveRoom_conn_cleared st pid cs prev h hc hcur
          exact inv_joinRoomCore_fresh (leaveRoom st pid).1 pid rid
            { cs with currentRoomId := none } h1 hc1 rfl hrid

theorem inv_handleConnect (st : ServerState) (pid : PeerId) (h : ServerInv st)
    (hfresh : mapGet st.conns pid = none) (hpid : pid ≠ "") :
    ServerInv (handleConnect st pid).1 := by
  unfold handleConnect
  refine ⟨h.roomsKeys, h.roomsNE, h.roomsND, h.ridNE, ?_, ?_, ?_⟩
  · intro q cs' hg
    by_cases hq : q = pid
    · subst hq
      exact hpid
    · rw [mapGet_mapSet_ne _ _ _ _ hq] at hg
      exact h.pidNE q cs' hg
  · intro r ms q hg hqm
    obtain ⟨cs', hcs', hcur'⟩ := h.memConn r ms q hg hqm
    have hq : q ≠ pid := by
      intro he
      subst he
      rw [hfresh] at hcs'
      cases hcs'
    rw [← mapGet_mapSet_ne st.conns pid q
      { currentRoomId := none, isOpen := true } hq] at hcs'
    exact ⟨cs', hcs', hcur'⟩
  · intro q cs' r hg hcur'
    by_cases hq : q = pid
    · subst hq
      rw [mapGet_mapSet_self] at hg
      obtain rfl := Option.some.inj hg
      cases hcur'
    · rw [mapGet_mapSet_ne _ _ _ _ hq] at hg
      exact h.curMem q cs' r hg hcur'

theorem inv_handleClose (st : ServerState) (pid : PeerId) (h : ServerInv st) :
    ServerInv (handleClose st pid).1 := by
  unfold handleClose
  rcases hc : mapGet st.conns pid with _ | cs
  · apply inv_leaveRoom
    exact h
  · apply inv_leaveRoom
    refine ⟨h.roomsKeys, h.roomsNE, h.roomsND, h.ridNE, ?_, ?_, ?_⟩
    · intro q cs' hg
      by_cases hq : q = pid
      · subst hq
        exact h.pidNE q cs hc
      · rw [mapGet_mapSet_ne _ _ _ _ hq] at hg
        exact h.pidNE q cs' hg
    · intro r ms q hg hqm
      obtain ⟨cs', hcs', hcur'⟩ := h.memConn r ms q hg hqm
      by_cases hq : q = pid
      · subst hq
        rw [hc] at hcs'
        obtain rfl := Option.some.inj hcs'
        exact ⟨{ cs with isOpen := false }, mapGet_mapSet_self _ _ _, hcur'⟩
      · rw [← mapGet_mapSet_ne st.conns pid q
          { cs with isOpen := false } hq] at hcs'
        exact ⟨cs', hcs', hcur'⟩
    · intro q cs' r hg hcur'
      by_cases hq : q = pid
      · subst hq
        rw [mapGet_mapSet_self] at hg
        obtain rfl := Option.some.inj hg
        exact h.curMem q cs r hc hcur'
      · rw [mapGet_mapSet_ne _ _ _ _ hq] at hg
        exact h.curMem q cs' r hg hcur'

theorem inv_step (st : ServerState) (e : Event) (h : ServerInv st)
    (hok : eventOK st e) : ServerInv (step st e).1 := by
  cases e with
  | connect pid => exact inv_handleConnect st pid h hok.1 hok.2
  | message pid m =>
    cases m with
    | invalidJson => exact h
    | unknown ty => exact h
    | joinRoom roomId => exact inv_handleJoinRoom st pid roomId h hok
    | relayMsg d =>
      show ServerInv (handleRelay st pid d).1
      rw [handleRelay_fst]
      exact h
  | close pid => exact inv_handleClose st pid h
  | socketError pid => exact inv_leaveRoom st pid h

theorem inv_run (es : List Event) : ∀ st : ServerState, ServerInv st →
    eventsOK st es → ServerInv (run st es) := by
  induction es with
  | nil =>
    intro st h _
    exact h
  | cons e rest ih =>
    intro st h hok
    obtain ⟨h1, h2⟩ := hok
    exact ih (step st e).1 (inv_step st e h h1) h2

/-! ### Shapes of emitted message lists, and counting helpers -/

theorem leaveRoom_msgs_shape (st : ServerState) (pid : PeerId) :
    ∀ x ∈ (leaveRoom st pid).2,
      ∃ q rid, x = (q, ServerMsg.peerLeft rid pid (peerLeftText pid)) := by
  intro x hx
  rcases hc : mapGet st.conns pid with _ | cs
  · rw [leaveRoom_no_conn st pid hc] at hx
    cases hx
  · rcases hcur : cs.currentRoomId with _ | rid
    · rw [leaveRoom_no_cur st pid cs hc hcur] at hx
      cases hx
    · rcases hrid : rid.isEmpty with _ | _
      · rcases hm : mapGet st.rooms rid with _ | members
        · rw [leaveRoom_no_room st pid cs rid hc hcur hrid hm] at hx
          cases hx
        · by_cases hemp : members.filter (fun m => m ≠ pid) = []
          · rw [leaveRoom_active_empty st pid cs rid members hc hcur hrid hm hemp] at hx
            cases hx
          · rw [leaveRoom_active_ne st pid cs rid members hc hcur hrid hm hemp] at hx
            obtain ⟨a, _, ha⟩ := List.mem_filterMap.mp hx
            rcases ho : isOpenIn st a with _ | _
            · rw [ho] at ha
              cases ha
            · rw [ho] at ha
              simp only [if_true] at ha
              obtain rfl := Option.some.inj ha
              exact ⟨a, rid, rfl⟩
      · rw [leaveRoom_empty_rid st pid cs rid hc hcur hrid] at hx
        cases hx

theorem switchLeave_msgs_shape (st : ServerState) (pid : PeerId) (rid : RoomId) :
    ∀ x ∈ (switchLeave st pid rid).2,
      ∃ q r, x = (q, ServerMsg.peerLeft r pid (peerLeftText pid)) := by
  intro x hx
  unfold switchLeave at hx
  by_cases hcond : truthy ((mapGet st.conns pid).bind (fun cs => cs.currentRoomId)) ∧
      (mapGet st.conns pid).bind (fun cs => cs.currentRoomId) ≠ some rid
  · rw [if_pos hcond] at hx
    exact leaveRoom_msgs_shape st pid x hx
  · rw [if_neg hcond] at hx
    cases hx

theorem joinRoomCore_msgs_shape (st : ServerState) (pid : PeerId) (rid : RoomId) :
    ∀ x ∈ (joinRoomCore st pid rid).2,
      (∃ peers, x = (pid, ServerMsg.existingPeers rid peers)) ∨
      (∃ q, q ≠ pid ∧ x = (q, ServerMsg.newPeerJoined rid pid)) ∨
      x = (pid, ServerMsg.joinedRoom rid pid) := by
  intro x hx
  simp only [joinRoomCore, List.append_assoc, List.mem_append] at hx
  rcases hx with hx | hx | hx
  · by_cases hlen : 0 < ((mapGet (if mapHas st.rooms rid then st.rooms
        else mapSet st.rooms rid []) rid).getD []).length
    · rw [if_pos hlen] at hx
      rw [List.mem_singleton] at hx
      exact Or.inl ⟨_, hx⟩
    · rw [if_neg hlen] at hx
      cases hx
  · obtain ⟨a, _, ha⟩ := List.mem_filterMap.mp hx
    by_cases hap : a = pid
    · rw [if_pos hap] at ha
      cases ha
    · rw [if_neg hap] at ha
      rcases ho : isOpenIn _ a with _ | _
      · rw [ho] at ha
        cases ha
      · rw [ho] at ha
        simp only [if_true] at ha
        obtain rfl := Option.some.inj ha
        exact Or.inr (Or.inl ⟨a, hap, rfl⟩)
  · rw [List.mem_singleton] at hx
    exact Or.inr (Or.inr hx)

theorem count_pair_filterMap_zero {β : Type} [DecidableEq β]
    (l : List PeerId) (p : PeerId → Bool) (g : PeerId → β) (q : PeerId)
    (hq : q ∉ l) :
    (l.filterMap (fun a => if p a then some (a, g a) else none)).count
      (q, g q) = 0 := by
  induction l with
  | nil => rfl
  | cons a rest ih =>
    have hqa : q ≠ a := fun e => hq (e ▸ List.mem_cons_self a rest)
    have hqr : q ∉ rest := fun e => hq (List.mem_cons_of_mem a e)
    rcases hp : p a with _ | _
    · simp [List.filterMap_cons, hp, ih hqr]
    · simp [List.filterMap_cons, hp, List.count_cons, ih hqr, Ne.symm hqa]

theorem count_pair_filterMap_one {β : Type} [DecidableEq β]
    (l : List PeerId) (p : PeerId → Bool) (g : PeerId → β) (q : PeerId)
    (hnd : l.Nodup) (hq : q ∈ l) (hp : p q = true) :
    (l.filterMap (fun a => if p a then some (a, g a) else none)).count
      (q, g q) = 1 := by
  induction l with
  | nil => cases hq
  | cons a rest ih =>
    rw [List.nodup_cons] at hnd
    rcases List.mem_cons.mp hq with rfl | hq_rest
    · simp [List.filterMap_cons, hp, List.count_cons,
        count_pair_filterMap_zero rest p g q hnd.1]
    · have hqa : q ≠ a := fun e => hnd.1 (e ▸ hq_rest)
      rcases hp' : p a with _ | _
      · simp [List.filterMap_cons, hp', ih hnd.2 hq_rest]
      · simp [List.filterMap_cons, hp', List.count_cons, ih hnd.2 hq_rest,
          Ne.symm hqa]

/-! ### `handleRelay` branch characterization -/

theorem handleRelay_no_room (st : ServerState) (pid : PeerId) (d : RelayData)
    (htr : truthy d.targetPeerId = true)
    (hfail : ¬(truthy ((mapGet st.conns pid).bind (fun cs => cs.currentRoomId)) = true ∧
        mapHas st.rooms
          (((mapGet st.conns pid).bind (fun cs => cs.currentRoomId)).getD "") = true)) :
    handleRelay st pid d =
      (st, [(pid, ServerMsg.error "You are not in a valid room to send signaling data.")]) := by
  simp only [handleRelay, htr]
  rw [if_neg (by simp)]
  rw [if_neg hfail]

theorem handleRelay_target_fail (st : ServerState) (pid : PeerId) (d : RelayData)
    (cs : ConnState) (rid : RoomId)
    (hc : mapGet st.conns pid = some cs) (hcur : cs.currentRoomId = some rid)
    (hrid : rid ≠ "") (htr : truthy d.targetPeerId = true)
    (hhas : mapHas st.rooms rid = true)
    (hfail : ¬((roomMembers st rid).contains (d.targetPeerId.getD "") = true ∧
        isOpenIn st (d.targetPeerId.getD "") = true)) :
    handleRelay st pid d =
      (st, [(pid, ServerMsg.error
        ("Target peer " ++ d.targetPeerId.getD "" ++ " not found or not available."))]) := by
  simp only [handleRelay, htr, hc, Option.some_bind, hcur, Option.getD_some]
  rw [if_neg (by simp)]
  rw [if_pos ⟨by simp [truthy, str_isEmpty_false hrid], hhas⟩]
  rw [if_neg hfail]

theorem handleRelay_delivered (st : ServerState) (pid : PeerId) (d : RelayData)
    (cs : ConnState) (rid : RoomId)
    (hc : mapGet st.conns pid = some cs) (hcur : cs.currentRoomId = some rid)
    (hrid : rid ≠ "") (htr : truthy d.targetPeerId = true)
    (hhas : mapHas st.rooms rid = true)
    (hmem : (roomMembers st rid).contains (d.targetPeerId.getD "") = true)
    (hopen : isOpenIn st (d.targetPeerId.getD "") = true) :
    handleRelay st pid d =
      (st, [(d.targetPeerId.getD "",
             ServerMsg.relay { d with senderPeerId := some pid })]) := by
  simp only [handleRelay, htr, hc, Option.some_bind, hcur, Option.getD_some]
  rw [if_neg (by simp)]
  rw [if_pos ⟨by simp [truthy, str_isEmpty_false hrid], hhas⟩]
  rw [if_pos ⟨hmem, hopen⟩]

theorem relay_not_in_handleJoinRoom (st : ServerState) (pid : PeerId)
    (roomId : Option RoomId) (q : PeerId) (d' : RelayData) :
    (q, ServerMsg.relay d') ∉ (handleJoinRoom st pid roomId).2 := by
  intro hx
  rcases ht : truthy roomId with _ | _
  · rw [handleJoinRoom_invalid st pid roomId ht] at hx
    simp at hx
  · rcases roomId with _ | rid
    · exact absurd ht (by decide)
    · have hrid : rid ≠ "" := by
        intro he
        subst he
        exact absurd ht (by decide)
      rw [handleJoinRoom_valid st pid rid hrid] at hx
      rcases List.mem_append.mp hx with hx | hx
      · obtain ⟨a, r, heq⟩ := switchLeave_msgs_shape st pid rid _ hx
        simp at heq
      · rcases joinRoomCore_msgs_shape _ pid rid _ hx with ⟨peers, heq⟩ | ⟨a, _, heq⟩ | heq
        · simp at heq
        · simp at heq
        · simp at heq

/-! ### No-op shape of a second cleanup -/

theorem leaveRoom_twice (st : ServerState) (pid : PeerId) :
    leaveRoom (leaveRoom st pid).1 pid = ((leaveRoom st pid).1, []) := by
  rcases hc : mapGet st.conns pid with _ | cs
  · rw [leaveRoom_no_conn st pid hc, leaveRoom_no_conn st pid hc]
  · rcases hcur : cs.currentRoomId with _ | rid
    · rw [leaveRoom_no_cur st pid cs hc hcur, leaveRoom_no_cur st pid cs hc hcur]
    · rcases hrid : rid.isEmpty with _ | _
      · rcases hm : mapGet st.rooms rid with _ | members
        · rw [leaveRoom_no_room st pid cs rid hc hcur hrid hm,
              leaveRoom_no_room st pid cs rid hc hcur hrid hm]
        · by_cases hemp : members.filter (fun m => m ≠ pid) = []
          · rw [leaveRoom_active_empty st pid cs rid members hc hcur hrid hm hemp]
            exact leaveRoom_no_cur _ pid { cs with currentRoomId := none }
              (mapGet_mapSet_self _ _ _) rfl
          · rw [leaveRoom_active_ne st pid cs rid members hc hcur hrid hm hemp]
            exact leaveRoom_no_cur _ pid { cs with currentRoomId := none }
              (mapGet_mapSet_self _ _ _) rfl
      · rw [leaveRoom_empty_rid st pid cs rid hc hcur hrid,
            leaveRoom_empty_rid st pid cs rid hc hcur hrid]

theorem handleClose_noop (s : ServerState) (pid : PeerId)
    (h : ∀ cs rid, mapGet s.conns pid = some cs → cs.currentRoomId = some rid →
         rid.isEmpty = true ∨ mapGet s.rooms rid = none) :
    (handleClose s pid).2 = [] ∧ (handleClose s pid).1.rooms = s.rooms := by
  unfold handleClose
  rcases hc : mapGet s.conns pid with _ | cs
  · simp only [hc]
    rw [leaveRoom_no_conn _ pid hc]
    exact ⟨rfl, rfl⟩
  · simp only [hc]
    rcases hcur : cs.currentRoomId with _ | rid
    · rw [leaveRoom_no_cur
        { rooms := s.rooms, conns := mapSet s.conns pid ⟨none, false⟩ }
        pid ⟨none, false⟩ (mapGet_mapSet_self _ _ _) rfl]
      exact ⟨rfl, rfl⟩
    · rcases hrid : rid.isEmpty with _ | _
      · rcases h cs rid hc hcur with hr | hr
        · rw [hrid] at hr
          cases hr
        · rw [leaveRoom_no_room
            { rooms := s.rooms, conns := mapSet s.conns pid ⟨some rid, false⟩ }
            pid ⟨some rid, false⟩ rid (mapGet_mapSet_self _ _ _) rfl hrid hr]
          exact ⟨rfl, rfl⟩
      · rw [leaveRoom_empty_rid
          { rooms := s.rooms, conns := mapSet s.conns pid ⟨some rid, false⟩ }
          pid ⟨some rid, false⟩ rid (mapGet_mapSet_self _ _ _) rfl hrid]
        exact ⟨rfl, rfl⟩

/-! ## Claims -/

/-- Concrete state: a single fresh connection `X`, no rooms. -/
def stFreshX : ServerState :=
  { rooms := [], conns := [("X", { currentRoomId := none, isOpen := true })] }

/-- Concrete state: `X` alone in room `r1`. -/
def stXinR1 : ServerState :=
  { rooms := [("r1", ["X"])],
    conns := [("X", { currentRoomId := some "r1", isOpen := true })] }

/-- Concrete state: `X` and `Y` both in room `r1`, both open. -/
def stXYinR1 : ServerState :=
  { rooms := [("r1", ["X", "Y"])],
    conns := [("X", { currentRoomId := some "r1", isOpen := true }),
              ("Y", { currentRoomId := some "r1", isOpen := true })] }

/-- A concrete inbound offer from `X` to `Y`, carrying an opaque `sdp` payload
and a forged client-supplied `senderPeerId`. -/
def dOfferXY : RelayData :=
  { rtype := RelayType.offer, targetPeerId := some "Y",
    senderPeerId := some "EVIL", payload := [("sdp", "blob")] }

/-- C1, counterexample: a fresh peer `X` joining room `"r1"` while that room has
no members receives ONLY `joined-room`; the server never sends the
`existing-peers {roomId, peers: []}` message the claim requires, because the
send at `server.js` line 71 is guarded by `roomClients.size > 0`. -/
theorem c1_counterexample :
    (handleMessage stFreshX "X" (ClientMsg.joinRoom (some "r1"))).2
        = [("X", ServerMsg.joinedRoom "r1" "X")] ∧
    ("X", ServerMsg.existingPeers "r1" [])
        ∉ (handleMessage stFreshX "X" (ClientMsg.joinRoom (some "r1"))).2 := by
  constructor
  · decide
  · decide

/-- C1, amended: for every peer X that connects and sends `join-room` with a
(non-empty) roomId while that room has no members, the server sends X no
`existing-peers` message at all (the empty-room send is skipped); X receives
exactly one message, the `joined-room` confirmation echoing the roomId and
X's peerId. -/
theorem c1_join_empty_room (st : ServerState) (pid : PeerId) (rid : RoomId)
    (cs : ConnState) (hc : mapGet st.conns pid = some cs)
    (hcur : cs.currentRoomId = none) (hrid : rid ≠ "")
    (hroom : roomMembers st rid = []) :
    (handleMessage st pid (ClientMsg.joinRoom (some rid))).2
      = [(pid, ServerMsg.joinedRoom rid pid)] := by
  show (handleJoinRoom st pid (some rid)).2 = _
  rw [handleJoinRoom_valid st pid rid hrid, switchLeave_none st pid rid cs hc hcur]
  have hd : mapGet st.rooms rid = none ∨ mapGet st.rooms rid = some [] := by
    unfold roomMembers at hroom
    rcases hg : mapGet st.rooms rid with _ | ms
    · exact Or.inl rfl
    · rw [hg] at hroom
      simp only [Option.getD_some] at hroom
      exact Or.inr (by rw [hroom])
  rw [joinRoomCore_empty st pid rid cs hc hd]
  rfl

/-- C1, witness for the amended theorem at a concrete input. -/
theorem c1_join_empty_room_witness :
    (handleMessage stFreshX "X" (ClientMsg.joinRoom (some "r1"))).2
      = [("X", ServerMsg.joinedRoom "r1" "X")] :=
  c1_join_empty_room stFreshX "X" "r1" { currentRoomId := none, isOpen := true }
    (by decide) rfl (by decide) (by decide)

/-- C7: a relay message that meets all delivery conditions is forwarded to the
target only, with the server state unchanged, and the delivered record keeps
every original field (`type`, `targetPeerId`, the opaque payload) and carries
`senderPeerId` equal to the actual sending connection's peerId. -/
theorem c7_relay_payload_preserved (st : ServerState) (pid t : PeerId)
    (d : RelayData) (cs : ConnState) (rid : RoomId)
    (hc : mapGet st.conns pid = some cs) (hcur : cs.currentRoomId = some rid)
    (hrid : rid ≠ "") (ht : d.targetPeerId = some t) (htne : t ≠ "")
    (hmem : t ∈ roomMembers st rid) (hopen : isOpenIn st t = true) :
    handleRelay st pid d
        = (st, [(t, ServerMsg.relay { d with senderPeerId := some pid })]) ∧
    ({ d with senderPeerId := some pid } : RelayData).rtype = d.rtype ∧
    ({ d with senderPeerId := some pid } : RelayData).targetPeerId = d.targetPeerId ∧
    ({ d with senderPeerId := some pid } : RelayData).payload = d.payload := by
  have hhas : mapHas st.rooms rid = true := by
    unfold roomMembers at hmem
    rcases hg : mapGet st.rooms rid with _ | ms
    · rw [hg] at hmem
      cases hmem
    · simp [mapHas, hg]
  have htr : truthy d.targetPeerId = true := by
    rw [ht]
    simp [truthy, str_isEmpty_false htne]
  have hgd : d.targetPeerId.getD "" = t := by rw [ht]; rfl
  have hcont : (roomMembers st rid).contains (d.targetPeerId.getD "") = true := by
    rw [hgd]
    simpa using hmem
  have hopen' : isOpenIn st (d.targetPeerId.getD "") = true := by
    rw [hgd]
    exact hopen
  refine ⟨?_, rfl, rfl, rfl⟩
  rw [handleRelay_delivered st pid d cs rid hc hcur hrid htr hhas hcont hopen', hgd]

/-- C7, witness at a concrete input: `X` relays an offer to `Y` in room `r1`. -/
theorem c7_relay_payload_preserved_witness :
    handleRelay stXYinR1 "X" dOfferXY
        = (stXYinR1,
           [("Y", ServerMsg.relay { dOfferXY with senderPeerId := some "X" })]) ∧
    ({ dOfferXY with senderPeerId := some "X" } : RelayData).rtype = dOfferXY.rtype ∧
    ({ dOfferXY with senderPeerId := some "X" } : RelayData).targetPeerId
        = dOfferXY.targetPeerId ∧
    ({ dOfferXY with senderPeerId := some "X" } : RelayData).payload
        = dOfferXY.payload :=
  c7_relay_payload_preserved stXYinR1 "X" "Y" dOfferXY
    { currentRoomId := some "r1", isOpen := true } "r1"
    (by decide) rfl (by decide) rfl (by decide) (by decide) (by decide)

/-- C8: every unparseable message, unrecognized type, `join-room` without a
(truthy) roomId, or relay message without a (truthy) targetPeerId produces an
error reply to the sender only, with the state (rooms, memberships, socket
flags) completely unchanged — in particular the sender's connection is left
open. -/
theorem c8_malformed_error_only (st : ServerState) (pid : PeerId) (m : ClientMsg)
    (h : m = ClientMsg.invalidJson ∨ (∃ ty, m = ClientMsg.unknown ty) ∨
         (∃ r, m = ClientMsg.joinRoom r ∧ truthy r = false) ∨
         (∃ d, m = ClientMsg.relayMsg d ∧ truthy d.targetPeerId = false)) :
    ∃ emsg, handleMessage st pid m = (st, [(pid, ServerMsg.error emsg)]) := by
  rcases h with rfl | ⟨ty, rfl⟩ | ⟨r, rfl, hr⟩ | ⟨d, rfl, hd⟩
  · exact ⟨"Invalid JSON message.", rfl⟩
  · exact ⟨"Unknown message type: " ++ ty, rfl⟩
  · exact ⟨"Room ID is required.", handleJoinRoom_invalid st pid r hr⟩
  · exact ⟨"Signaling message requires a targetPeerId.",
      handleRelay_no_target st pid d hd⟩

/-- C8, witness at a concrete input: unparseable JSON from `X` leaves the
state unchanged. -/
theorem c8_malformed_error_only_witness :
    (handleMessage stFreshX "X" ClientMsg.invalidJson).1 = stFreshX := by
  obtain ⟨emsg, hmsg⟩ :=
    c8_malformed_error_only stFreshX "X" ClientMsg.invalidJson (Or.inl rfl)
  rw [hmsg]

/-- C9: whatever `senderPeerId` a client puts inside its relay message, any
relay message the server delivers carries `senderPeerId` equal to the peerId
of the connection that actually sent it — the spread `{...data}` is followed
by `senderPeerId: peerId`, so the client-supplied value is always
overwritten, and no other handler ever emits a relay message. -/
theorem c9_sender_id_overwritten (st : ServerState) (pid q : PeerId)
    (m : ClientMsg) (d' : RelayData)
    (h : (q, ServerMsg.relay d') ∈ (handleMessage st pid m).2) :
    d'.senderPeerId = some pid := by
  cases m with
  | invalidJson => simp [handleMessage] at h
  | unknown ty => simp [handleMessage] at h
  | joinRoom roomId => exact absurd h (relay_not_in_handleJoinRoom st pid roomId q d')
  | relayMsg d =>
    have h' : (q, ServerMsg.relay d') ∈ (handleRelay st pid d).2 := h
    rcases htr : truthy d.targetPeerId with _ | _
    · rw [handleRelay_no_target st pid d htr] at h'
      simp at h'
    · rcases hcg : mapGet st.conns pid with _ | cs
      · rw [handleRelay_no_room st pid d htr (by simp [hcg, truthy])] at h'
        simp at h'
      · rcases hcur : cs.currentRoomId with _ | rid
        · rw [handleRelay_no_room st pid d htr (by simp [hcg, hcur, truthy])] at h'
          simp at h'
        · by_cases hrid : rid = ""
          · rw [handleRelay_no_room st pid d htr (by
              intro hcon
              rcases hcon with ⟨ha, _⟩
              rw [hcg] at ha
              simp only [Option.some_bind, hcur, hrid] at ha
              exact absurd ha (by decide))] at h'
            simp at h'
          · rcases hhas : mapHas st.rooms rid with _ | _
            · rw [handleRelay_no_room st pid d htr (by
                intro hcon
                rcases hcon with ⟨_, hb⟩
                rw [hcg] at hb
                simp only [Option.some_bind, hcur, Option.getD_some] at hb
                rw [hhas] at hb
                cases hb)] at h'
              simp at h'
            · by_cases h2 : (roomMembers st rid).contains (d.targetPeerId.getD "") = true ∧
                  isOpenIn st (d.targetPeerId.getD "") = true
              · rw [handleRelay_delivered st pid d cs rid hcg hcur hrid htr hhas
                  h2.1 h2.2] at h'
                rw [List.mem_singleton] at h'
                have h3 : ServerMsg.relay d'
                    = ServerMsg.relay { d with senderPeerId := some pid } :=
                  congrArg Prod.snd h'
                injection h3 with h4
                rw [h4]
              · rw [handleRelay_target_fail st pid d cs rid hcg hcur hrid htr
                  hhas h2] at h'
                simp at h'

/-- C9, witness at a concrete input: the inbound offer carries the forged
`senderPeerId := some "EVIL"`, yet the delivered record names `X`. -/
theorem c9_sender_id_overwritten_witness :
    ({ dOfferXY with senderPeerId := some "X" } : RelayData).senderPeerId
      = some "X" :=
  c9_sender_id_overwritten stXYinR1 "X" "Y" (ClientMsg.relayMsg dOfferXY)
    { dOfferXY with senderPeerId := some "X" } (by decide)

/-- C10: cleanup is idempotent: a second `leaveRoom` for the same connection
is a no-op returning the same state with no messages (the first run either
cleared `currentRoomId` or was itself a no-op that left nothing to remove),
and in particular an `error` event followed by a `close` event for the same
connection sends no additional `peer-left` and removes nothing further from
the room table. -/
theorem c10_cleanup_idempotent (st : ServerState) (pid : PeerId) :
    leaveRoom (leaveRoom st pid).1 pid = ((leaveRoom st pid).1, []) ∧
    (handleClose (handleSocketError st pid).1 pid).2 = [] ∧
    (handleClose (handleSocketError st pid).1 pid).1.rooms
      = (handleSocketError st pid).1.rooms := by
  refine ⟨leaveRoom_twice st pid, ?_⟩
  show (handleClose (leaveRoom st pid).1 pid).2 = []
    ∧ (handleClose (leaveRoom st pid).1 pid).1.rooms = (leaveRoom st pid).1.rooms
  apply handleClose_noop
  intro cs rid hcc hcur
  rcases hc0 : mapGet st.conns pid with _ | cs0
  · rw [leaveRoom_no_conn st pid hc0] at hcc
    rw [hc0] at hcc
    cases hcc
  · rcases hcur0 : cs0.currentRoomId with _ | rid0
    · rw [leaveRoom_no_cur st pid cs0 hc0 hcur0] at hcc
      rw [hc0] at hcc
      obtain rfl := Option.some.inj hcc
      rw [hcur0] at hcur
      cases hcur
    · rcases hrid0 : rid0.isEmpty with _ | _
      · rcases hm0 : mapGet st.rooms rid0 with _ | members0
        · rw [leaveRoom_no_room st pid cs0 rid0 hc0 hcur0 hrid0 hm0] at hcc ⊢
          rw [hc0] at hcc
          obtain rfl := Option.some.inj hcc
          rw [hcur0] at hcur
          obtain rfl := Option.some.inj hcur
          exact Or.inr hm0
        · by_cases hemp : members0.filter (fun m => m ≠ pid) = []
          · rw [leaveRoom_active_empty st pid cs0 rid0 members0
              hc0 hcur0 hrid0 hm0 hemp] at hcc
            rw [mapGet_mapSet_self] at hcc
            obtain rfl := Option.some.inj hcc
            cases hcur
          · rw [leaveRoom_active_ne st pid cs0 rid0 members0
              hc0 hcur0 hrid0 hm0 hemp] at hcc
            rw [mapGet_mapSet_self] at hcc
            obtain rfl := Option.some.inj hcc
            cases hcur
      · rw [leaveRoom_empty_rid st pid cs0 rid0 hc0 hcur0 hrid0] at hcc ⊢
        rw [hc0] at hcc
        obtain rfl := Option.some.inj hcc
        rw [hcur0] at hcur
        obtain rfl := Option.some.inj hcur
        exact Or.inl hrid0

theorem joinRoomCore_msgs_fresh (st : ServerState) (pid : PeerId) (rid : RoomId)
    (cs : ConnState) (h : ServerInv st) (hc : mapGet st.conns pid = some cs)
    (hcur : cs.currentRoomId = none) (_hrid : rid ≠ "") :
    (∀ q r peers, (q, ServerMsg.existingPeers r peers) ∈ (joinRoomCore st pid rid).2 →
        q = pid ∧ r = rid ∧ peers = roomMembers st rid ∧ pid ∉ peers) ∧
    (∀ q r newId, (q, ServerMsg.newPeerJoined r newId) ∈ (joinRoomCore st pid rid).2 →
        newId = pid ∧ q ≠ pid ∧ q ∈ roomMembers (joinRoomCore st pid rid).1 rid) := by
  have hnotmem : ∀ r ms, mapGet st.rooms r = some ms → pid ∉ ms := by
    intro r ms hms hmem
    obtain ⟨cs', hcs', hcur'⟩ := h.memConn r ms pid hms hmem
    rw [hc] at hcs'
    obtain rfl := Option.some.inj hcs'
    rw [hcur] at hcur'
    cases hcur'
  rcases hroom : mapGet st.rooms rid with _ | members
  · rw [joinRoomCore_empty st pid rid cs hc (Or.inl hroom)]
    constructor
    · intro q r peers hmem
      simp at hmem
    · intro q r newId hmem
      simp at hmem
  · have hne : members ≠ [] := h.roomsNE rid members hroom
    have hnm : pid ∉ members := hnotmem rid members hroom
    rw [joinRoomCore_nonempty st pid rid cs members hc hroom hne hnm]
    constructor
    · intro q r peers hmem
      rcases List.mem_cons.mp hmem with heq | hmem'
      · have h1 : q = pid := congrArg Prod.fst heq
        have h2 : ServerMsg.existingPeers r peers
            = ServerMsg.existingPeers rid members := congrArg Prod.snd heq
        injection h2 with h2a h2b
        refine ⟨h1, h2a, ?_, ?_⟩
        · rw [h2b]
          unfold roomMembers
          rw [hroom]
          rfl
        · rw [h2b]
          exact hnm
      · rcases List.mem_append.mp hmem' with hx | hx
        · obtain ⟨a, _, ha⟩ := List.mem_filterMap.mp hx
          rcases ho : isOpenIn st a with _ | _ <;> rw [ho] at ha <;> simp at ha
        · rw [List.mem_singleton] at hx
          simp at hx
    · intro q r newId hmem
      rcases List.mem_cons.mp hmem with heq | hmem'
      · have h2 : ServerMsg.newPeerJoined r newId
            = ServerMsg.existingPeers rid members := congrArg Prod.snd heq
        cases h2
      · rcases List.mem_append.mp hmem' with hx | hx
        · obtain ⟨a, hamem, ha⟩ := List.mem_filterMap.mp hx
          rcases ho : isOpenIn st a with _ | _ <;> rw [ho] at ha
          · cases ha
          · simp only [if_true] at ha
            have heq := Option.some.inj ha
            have hq : q = a := (congrArg Prod.fst heq).symm
            have h2 : ServerMsg.newPeerJoined rid pid
                = ServerMsg.newPeerJoined r newId := congrArg Prod.snd heq
            injection h2 with h2a h2b
            subst hq
            refine ⟨h2b.symm, fun e => hnm (e ▸ hamem), ?_⟩
            unfold roomMembers
            rw [mapGet_mapSet_self]
            exact List.mem_append_left _ hamem
        · rw [List.mem_singleton] at hx
          simp at hx

/-- Concrete state: `X` in room `r1`, `Y` connected but in no room. -/
def stXYfreshY : ServerState :=
  { rooms := [("r1", ["X"])],
    conns := [("X", { currentRoomId := some "r1", isOpen := true }),
              ("Y", { currentRoomId := none, isOpen := true })] }

/-- `stXYfreshY` is reachable from the initial state, hence satisfies the
server invariant. -/
theorem invStXYfreshY : ServerInv stXYfreshY := by
  have hok : eventsOK initState
      [Event.connect "X", Event.message "X" (ClientMsg.joinRoom (some "r1")),
       Event.connect "Y"] := by
    refine ⟨?_, ?_, ?_, trivial⟩
    · exact ⟨by decide, by decide⟩
    · show (mapGet (step initState (Event.connect "X")).1.conns "X").isSome = true
      decide
    · exact ⟨by decide, by decide⟩
  have h := inv_run
    [Event.connect "X", Event.message "X" (ClientMsg.joinRoom (some "r1")),
     Event.connect "Y"] initState inv_initState hok
  have heq : run initState
      [Event.connect "X", Event.message "X" (ClientMsg.joinRoom (some "r1")),
       Event.connect "Y"] = stXYfreshY := by decide
  rw [heq] at h
  exact h

/-- C2, counterexample: `X`, already the sole member of room `r1`, sends
`join-room {roomId:"r1"}` again.  Because the room-switch leave at
`server.js` line 57 only fires for a *different* room, the snapshot taken at
line 72 already contains `X`, so `X` receives an existing-peers list
containing its own peerId. -/
theorem c2_counterexample :
    ("X", ServerMsg.existingPeers "r1" ["X"])
        ∈ (handleMessage stXinR1 "X" (ClientMsg.joinRoom (some "r1"))).2 ∧
    "X" ∈ ["X"] := by
  constructor
  · decide
  · decide

/-- C2, amended: for every join-room whose (non-empty) target room differs
from the joiner's current room (in particular for every peer not already a
member of the target room), the existing-peers snapshot sent to the joiner is
exactly the target room's member list of the state *before* the joiner's
insertion (after the possible leave of its previous room), and it never
contains the joiner; every new-peer-joined notification names the joiner and
goes only to peers other than the joiner that are members of the room *after*
the insertion.  The unamended claim fails only when a peer re-joins the room
it is already in. -/
theorem c2_snapshot_excludes_joiner (st : ServerState) (pid : PeerId)
    (rid : RoomId) (cs : ConnState) (h : ServerInv st)
    (hc : mapGet st.conns pid = some cs)
    (hdiff : cs.currentRoomId ≠ some rid) (hrid : rid ≠ "") :
    (∀ q r peers, (q, ServerMsg.existingPeers r peers)
          ∈ (handleMessage st pid (ClientMsg.joinRoom (some rid))).2 →
        q = pid ∧ r = rid
          ∧ peers = roomMembers (switchLeave st pid rid).1 rid
          ∧ pid ∉ peers) ∧
    (∀ q r newId, (q, ServerMsg.newPeerJoined r newId)
          ∈ (handleMessage st pid (ClientMsg.joinRoom (some rid))).2 →
        newId = pid ∧ q ≠ pid
          ∧ q ∈ roomMembers (handleMessage st pid (ClientMsg.joinRoom (some rid))).1 rid) := by
  have hmain : ∀ st1, (switchLeave st pid rid).1 = st1 → ServerInv st1 →
      (∃ cs1, mapGet st1.conns pid = some cs1 ∧ cs1.currentRoomId = none) →
      (∀ q r peers, (q, ServerMsg.existingPeers r peers)
            ∈ (handleMessage st pid (ClientMsg.joinRoom (some rid))).2 →
          q = pid ∧ r = rid
            ∧ peers = roomMembers (switchLeave st pid rid).1 rid
            ∧ pid ∉ peers) ∧
      (∀ q r newId, (q, ServerMsg.newPeerJoined r newId)
            ∈ (handleMessage st pid (ClientMsg.joinRoom (some rid))).2 →
          newId = pid ∧ q ≠ pid
            ∧ q ∈ roomMembers (handleMessage st pid (ClientMsg.joinRoom (some rid))).1 rid) := by
    intro st1 hst1 hinv1 ⟨cs1, hc1, hcur1⟩
    have hout : (handleMessage st pid (ClientMsg.joinRoom (some rid))).2
        = (switchLeave st pid rid).2 ++ (joinRoomCore st1 pid rid).2 := by
      show (handleJoinRoom st pid (some rid)).2 = _
      rw [handleJoinRoom_valid st pid rid hrid, hst1]
    have hst : (handleMessage st pid (ClientMsg.joinRoom (some rid))).1
        = (joinRoomCore st1 pid rid).1 := by
      show (handleJoinRoom st pid (some rid)).1 = _
      rw [handleJoinRoom_valid st pid rid hrid, hst1]
    obtain ⟨hpart1, hpart2⟩ :=
      joinRoomCore_msgs_fresh st1 pid rid cs1 hinv1 hc1 hcur1 hrid
    constructor
    · intro q r peers hmem
      rw [hout] at hmem
      rcases List.mem_append.mp hmem with hx | hx
      · obtain ⟨a, r', heq⟩ := switchLeave_msgs_shape st pid rid _ hx
        simp at heq
      · obtain ⟨h1, h2, h3, h4⟩ := hpart1 q r peers hx
        exact ⟨h1, h2, by rw [hst1]; exact h3, h4⟩
    · intro q r newId hmem
      rw [hout] at hmem
      rcases List.mem_append.mp hmem with hx | hx
      · obtain ⟨a, r', heq⟩ := switchLeave_msgs_shape st pid rid _ hx
        simp at heq
      · obtain ⟨h1, h2, h3⟩ := hpart2 q r newId hx
        exact ⟨h1, h2, by rw [hst]; exact h3⟩
  rcases hcur : cs.currentRoomId with _ | prev
  · exact hmain st (by rw [switchLeave_none st pid rid cs hc hcur]) h ⟨cs, hc, hcur⟩
  · have hprev_ne_rid : prev ≠ rid := fun e => hdiff (e ▸ hcur)
    obtain ⟨ms, hms, _⟩ := h.curMem pid cs prev hc hcur
    have hprevne : prev ≠ "" := h.ridNE prev ms hms
    exact hmain (leaveRoom st pid).1
      (by rw [switchLeave_other st pid rid cs prev hc hcur hprevne hprev_ne_rid])
      (inv_leaveRoom st pid h)
      ⟨{ cs with currentRoomId := none },
        leaveRoom_conn_cleared st pid cs prev h hc hcur, rfl⟩

/-- C2, witness for the amended theorem: `Y` (fresh) joins `r1` where `X`
already sits; the theorem applied to the concrete run yields that the
snapshot `["X"]` sent to `Y` excludes `Y`, and that the new-peer-joined
recipient `X` differs from the joiner. -/
theorem c2_snapshot_excludes_joiner_witness :
    "Y" ∉ (["X"] : List PeerId) ∧ ("X" : PeerId) ≠ "Y" := by
  have h := c2_snapshot_excludes_joiner stXYfreshY "Y" "r1"
    { currentRoomId := none, isOpen := true }
    invStXYfreshY (by decide) (by decide) (by decide)
  have h1 := h.1 "Y" "r1" ["X"] (by decide)
  have h2 := h.2 "X" "r1" "Y" (by decide)
  exact ⟨h1.2.2.2, h2.2.1⟩

/-- `stXYinR1` is reachable from the initial state, hence satisfies the
server invariant. -/
theorem invStXYinR1 : ServerInv stXYinR1 := by
  have hok : eventsOK initState
      [Event.connect "X", Event.message "X" (ClientMsg.joinRoom (some "r1")),
       Event.connect "Y", Event.message "Y" (ClientMsg.joinRoom (some "r1"))] := by
    refine ⟨?_, ?_, ?_, ?_, trivial⟩
    · exact ⟨by decide, by decide⟩
    · show (mapGet (step initState (Event.connect "X")).1.conns "X").isSome = true
      decide
    · exact ⟨by decide, by decide⟩
    · show (mapGet (step (step (step initState (Event.connect "X")).1
        (Event.message "X" (ClientMsg.joinRoom (some "r1")))).1
        (Event.connect "Y")).1.conns "Y").isSome = true
      decide
  have h := inv_run
    [Event.connect "X", Event.message "X" (ClientMsg.joinRoom (some "r1")),
     Event.connect "Y", Event.message "Y" (ClientMsg.joinRoom (some "r1"))]
    initState inv_initState hok
  have heq : run initState
      [Event.connect "X", Event.message "X" (ClientMsg.joinRoom (some "r1")),
       Event.connect "Y", Event.message "Y" (ClientMsg.joinRoom (some "r1"))]
      = stXYinR1 := by decide
  rw [heq] at h
  exact h

/-- C6: when a connection closes or errors while its peer is in a room with
other members, every remaining member whose connection is open receives
exactly one `peer-left` naming the departed peer (members that are not open
are skipped by the filter), and the departed peer's `currentRoomId` is
cleared; when the peer has no current room, the cleanup sends nothing and
(for the error path) changes nothing. -/
theorem c6_disconnect_cleanup (st : ServerState) (pid : PeerId) (cs : ConnState)
    (h : ServerInv st) (hc : mapGet st.conns pid = some cs) :
    (cs.currentRoomId = none →
      handleSocketError st pid = (st, []) ∧ (handleClose st pid).2 = []) ∧
    (∀ rid, cs.currentRoomId = some rid →
      (roomMembers st rid).filter (fun q => q ≠ pid) ≠ [] →
        (handleSocketError st pid).2
            = ((roomMembers st rid).filter (fun q => q ≠ pid)).filterMap
                (fun q => if isOpenIn st q then
                    some (q, ServerMsg.peerLeft rid pid (peerLeftText pid)) else none) ∧
        (handleClose st pid).2
            = ((roomMembers st rid).filter (fun q => q ≠ pid)).filterMap
                (fun q => if isOpenIn st q then
                    some (q, ServerMsg.peerLeft rid pid (peerLeftText pid)) else none) ∧
        (∀ q, q ∈ (roomMembers st rid).filter (fun q' => q' ≠ pid) →
            isOpenIn st q = true →
            (handleSocketError st pid).2.count
              (q, ServerMsg.peerLeft rid pid (peerLeftText pid)) = 1) ∧
        mapGet (handleSocketError st pid).1.conns pid
            = some { cs with currentRoomId := none } ∧
        mapGet (handleClose st pid).1.conns pid
            = some { currentRoomId := none, isOpen := false }) := by
  constructor
  · intro hcur
    refine ⟨leaveRoom_no_cur st pid cs hc hcur, ?_⟩
    refine (handleClose_noop st pid ?_).1
    intro cs' rid' hcc hcur'
    rw [hc] at hcc
    obtain rfl := Option.some.inj hcc
    rw [hcur] at hcur'
    cases hcur'
  · intro rid hcur hrem
    obtain ⟨ms, hms, hpidmem⟩ := h.curMem pid cs rid hc hcur
    have hridne : rid ≠ "" := h.ridNE rid ms hms
    have hmembers : roomMembers st rid = ms := by
      unfold roomMembers
      rw [hms]
      rfl
    rw [hmembers] at hrem
    have herr : handleSocketError st pid =
        ({ rooms := mapSet st.rooms rid (ms.filter (fun m => m ≠ pid)),
           conns := mapSet st.conns pid { cs with currentRoomId := none } },
         (ms.filter (fun m => m ≠ pid)).filterMap (fun m =>
           if isOpenIn st m then
             some (m, ServerMsg.peerLeft rid pid (peerLeftText pid))
           else none)) :=
      leaveRoom_active_ne st pid cs rid ms hc hcur
        (str_isEmpty_false hridne) hms hrem
    have hclose : (handleClose st pid).2
        = (ms.filter (fun m => m ≠ pid)).filterMap (fun m =>
            if isOpenIn st m then
              some (m, ServerMsg.peerLeft rid pid (peerLeftText pid))
            else none) ∧
        mapGet (handleClose st pid).1.conns pid
          = some { currentRoomId := none, isOpen := false } := by
      unfold handleClose
      simp only [hc]
      rw [leaveRoom_active_ne
        { rooms := st.rooms, conns := mapSet st.conns pid { cs with isOpen := false } }
        pid { cs with isOpen := false } rid ms (mapGet_mapSet_self _ _ _)
        hcur (str_isEmpty_false hridne) hms hrem]
      constructor
      · apply List.filterMap_congr
        intro m hmmem
        have hmp : m ≠ pid := by
          have := (List.mem_filter.mp hmmem).2
          simpa using this
        rw [isOpenIn_set_ne st.rooms st.conns st.rooms pid m
          { cs with isOpen := false } hmp]
      · rw [mapGet_mapSet_self]
    refine ⟨?_, ?_, ?_, ?_, hclose.2⟩
    · rw [hmembers, herr]
    · rw [hmembers]
      exact hclose.1
    · intro q hq hopen
      rw [hmembers] at hq
      rw [herr]
      show ((ms.filter (fun m => m ≠ pid)).filterMap (fun m =>
          if isOpenIn st m then
            some (m, ServerMsg.peerLeft rid pid (peerLeftText pid))
          else none)).count (q, ServerMsg.peerLeft rid pid (peerLeftText pid)) = 1
      exact count_pair_filterMap_one (ms.filter (fun m => m ≠ pid))
        (fun m => isOpenIn st m)
        (fun _ => ServerMsg.peerLeft rid pid (peerLeftText pid)) q
        ((h.roomsND rid ms hms).filter _) hq hopen
    · rw [herr]
      exact mapGet_mapSet_self _ _ _

/-- C6, witness: `Y` disconnects (error, then close) from `r1` where `X`
remains open; `X` receives the single `peer-left` naming `Y`. -/
theorem c6_disconnect_cleanup_witness :
    (handleSocketError stXYinR1 "Y").2
      = [("X", ServerMsg.peerLeft "r1" "Y" (peerLeftText "Y"))] ∧
    (handleClose stXYinR1 "Y").2
      = [("X", ServerMsg.peerLeft "r1" "Y" (peerLeftText "Y"))] := by
  have h := c6_disconnect_cleanup stXYinR1 "Y"
    { currentRoomId := some "r1", isOpen := true } invStXYinR1 (by decide)
  obtain ⟨h1, h2, _⟩ := h.2 "r1" rfl (by decide)
  constructor
  · rw [h1]
    decide
  · rw [h2]
    decide

/-- C5: an inbound offer/answer/ice-candidate is delivered (as a relay
message) to a connection t if and only if the message carries
`targetPeerId = t`, the sender currently has a room that is in the room
table, t is a member of that same room, and t's connection is open; in every
other case the sender alone receives an error reply and no relay message is
emitted to anyone. -/
theorem c5_relay_routing (st : ServerState) (pid : PeerId) (d : RelayData)
    (cs : ConnState) (h : ServerInv st) (hc : mapGet st.conns pid = some cs) :
    (∀ t d', (t, ServerMsg.relay d') ∈ (handleMessage st pid (ClientMsg.relayMsg d)).2 ↔
        (d.targetPeerId = some t ∧ d' = { d with senderPeerId := some pid } ∧
         ∃ rid, cs.currentRoomId = some rid ∧ mapHas st.rooms rid = true ∧
           t ∈ roomMembers st rid ∧ isOpenIn st t = true)) ∧
    ((¬ ∃ t rid, d.targetPeerId = some t ∧ cs.currentRoomId = some rid ∧
        mapHas st.rooms rid = true ∧ t ∈ roomMembers st rid ∧ isOpenIn st t = true) →
      ∃ emsg, (handleMessage st pid (ClientMsg.relayMsg d)).2
        = [(pid, ServerMsg.error emsg)]) := by
  have hmemne : ∀ rid t, t ∈ roomMembers st rid → t ≠ "" := by
    intro rid t hmem
    unfold roomMembers at hmem
    rcases hg : mapGet st.rooms rid with _ | ms
    · rw [hg] at hmem
      cases hmem
    · rw [hg] at hmem
      obtain ⟨cs', hcs', _⟩ := h.memConn rid ms t hg hmem
      exact h.pidNE t cs' hcs'
  have hmaster :
      (∃ rid t, cs.currentRoomId = some rid ∧ d.targetPeerId = some t ∧
         mapHas st.rooms rid = true ∧ t ∈ roomMembers st rid ∧
         isOpenIn st t = true ∧
         handleRelay st pid d
           = (st, [(t, ServerMsg.relay { d with senderPeerId := some pid })])) ∨
      (∃ emsg, handleRelay st pid d = (st, [(pid, ServerMsg.error emsg)]) ∧
         ¬ ∃ t rid, d.targetPeerId = some t ∧ cs.currentRoomId = some rid ∧
           mapHas st.rooms rid = true ∧ t ∈ roomMembers st rid ∧
           isOpenIn st t = true) := by
    rcases htr : truthy d.targetPeerId with _ | _
    · refine Or.inr ⟨_, handleRelay_no_target st pid d htr, ?_⟩
      rintro ⟨t, rid, hts, _, _, hmem, _⟩
      rw [hts] at htr
      simp only [truthy] at htr
      have ht0 : t = "" := by
        rcases hti : t.isEmpty with _ | _
        · rw [hti] at htr
          exact absurd htr (by decide)
        · exact (String.isEmpty_iff t).mp hti
      exact hmemne rid t hmem ht0
    · rcases hcur : cs.currentRoomId with _ | rid
      · refine Or.inr ⟨_, handleRelay_no_room st pid d htr
          (by rw [hc]; simp [hcur, truthy]), ?_⟩
        rintro ⟨t, rid, _, hcur', _, _, _⟩
        cases hcur'
      · obtain ⟨ms, hms, _⟩ := h.curMem pid cs rid hc hcur
        have hridne : rid ≠ "" := h.ridNE rid ms hms
        have hhas : mapHas st.rooms rid = true := by simp [mapHas, hms]
        rcases ht : d.targetPeerId with _ | t
        · rw [ht] at htr
          cases htr
        · by_cases h2 : t ∈ roomMembers st rid ∧ isOpenIn st t = true
          · refine Or.inl ⟨rid, t, rfl, rfl, hhas, h2.1, h2.2, ?_⟩
            have hdel := handleRelay_delivered st pid d cs rid hc hcur hridne
              (by rw [ht] at htr ⊢; exact htr) hhas
              (by rw [ht]; show (roomMembers st rid).contains t = true; simpa using h2.1)
              (by rw [ht]; exact h2.2)
            rw [ht] at hdel
            exact hdel
          · refine Or.inr ⟨_, handleRelay_target_fail st pid d cs rid hc hcur hridne
              (by rw [ht] at htr ⊢; exact htr) hhas ?_, ?_⟩
            · rw [ht]
              intro hcon
              exact h2 ⟨by simpa using hcon.1, hcon.2⟩
            · rintro ⟨t', rid', hts', hcur', _, hmem', hopen'⟩
              obtain rfl := Option.some.inj hts'
              obtain rfl := Option.some.inj hcur'
              exact h2 ⟨hmem', hopen'⟩
  constructor
  · intro t d'
    constructor
    · intro hmem
      have hmem' : (t, ServerMsg.relay d') ∈ (handleRelay st pid d).2 := hmem
      rcases hmaster with ⟨rid, t0, hcur, hts, hhas, hm0, ho0, heq⟩ |
          ⟨emsg, heq, _⟩
      · rw [heq] at hmem'
        rw [List.mem_singleton] at hmem'
        have h1 : t = t0 := congrArg Prod.fst hmem'
        have h2 : ServerMsg.relay d'
            = ServerMsg.relay { d with senderPeerId := some pid } :=
          congrArg Prod.snd hmem'
        injection h2 with h2'
        subst h1
        exact ⟨hts, h2', rid, hcur, hhas, hm0, ho0⟩
      · rw [heq] at hmem'
        rw [List.mem_singleton] at hmem'
        have h2 : ServerMsg.relay d' = ServerMsg.error emsg :=
          congrArg Prod.snd hmem'
        cases h2
    · rintro ⟨hts, hd', rid, hcur, hhas, hmem, hopen⟩
      rcases hmaster with ⟨rid0, t0, hcur0, hts0, _, _, _, heq⟩ |
          ⟨emsg, heq, hno⟩
      · rw [hts] at hts0
        obtain rfl := Option.some.inj hts0
        show (t, ServerMsg.relay d') ∈ (handleRelay st pid d).2
        rw [heq, hd']
        exact List.mem_singleton.mpr rfl
      · exact absurd ⟨t, rid, hts, hcur, hhas, hmem, hopen⟩ hno
  · intro hno
    rcases hmaster with ⟨rid, t0, hcur, hts, hhas, hm0, ho0, _⟩ |
        ⟨emsg, heq, _⟩
    · exact absurd ⟨t0, rid, hts, hcur, hhas, hm0, ho0⟩ hno
    · refine ⟨emsg, ?_⟩
      show (handleRelay st pid d).2 = _
      rw [heq]

/-- C5, witness: in the concrete two-member room, the offer from `X` to `Y`
meets all conditions and is delivered to `Y`. -/
theorem c5_relay_routing_witness :
    ("Y", ServerMsg.relay { dOfferXY with senderPeerId := some "X" })
      ∈ (handleMessage stXYinR1 "X" (ClientMsg.relayMsg dOfferXY)).2 := by
  have h := c5_relay_routing stXYinR1 "X" dOfferXY
    { currentRoomId := some "r1", isOpen := true } invStXYinR1 (by decide)
  exact (h.1 "Y" { dOfferXY with senderPeerId := some "X" }).mpr
    ⟨rfl, rfl, "r1", rfl, by decide, by decide, by decide⟩

/-- C3: starting from the empty server, after any admissible sequence of
events (connects with fresh ids, messages/closes/errors of registered
connections), a room id is a key of the rooms table if and only if its member
list is non-empty — so creating a room inserts its first member in the same
event, and removing the last member (by switch, disconnect or error) deletes
the entry. -/
theorem c3_room_iff_nonempty (es : List Event) (rid : RoomId)
    (hok : eventsOK initState es) :
    mapHas (run initState es).rooms rid = true
      ↔ roomMembers (run initState es) rid ≠ [] := by
  have h := inv_run es initState inv_initState hok
  constructor
  · intro hh
    obtain ⟨ms, hg⟩ := (mapHas_iff _ _).mp hh
    unfold roomMembers
    rw [hg]
    have hne := h.roomsNE rid ms hg
    simpa using hne
  · intro hh
    rcases hg : mapGet (run initState es).rooms rid with _ | ms
    · unfold roomMembers at hh
      rw [hg] at hh
      simp at hh
    · exact (mapHas_iff _ _).mpr ⟨ms, hg⟩

/-- C3, witness: after `X` joins `r1` and then disconnects, `r1` is absent
and its member list is empty; the equivalence holds on this concrete run. -/
theorem c3_room_iff_nonempty_witness :
    mapHas (run initState [Event.connect "X",
        Event.message "X" (ClientMsg.joinRoom (some "r1")),
        Event.close "X"]).rooms "r1" = true
      ↔ roomMembers (run initState [Event.connect "X",
          Event.message "X" (ClientMsg.joinRoom (some "r1")),
          Event.close "X"]) "r1" ≠ [] := by
  refine c3_room_iff_nonempty _ "r1" ?_
  refine ⟨?_, ?_, trivial, trivial⟩
  · exact ⟨by decide, by decide⟩
  · show (mapGet (step initState (Event.connect "X")).1.conns "X").isSome = true
    decide

/-- C4: in every state reachable from the empty server, a peerId is a member
of at most one room, membership and `currentRoomId` agree in both directions
(a member's `currentRoomId` names its room, and a `currentRoomId` naming a
room implies membership in it — so a peer in no room has `currentRoomId`
null); and a `join-room` for a different room B first removes the peer from
its current room A — emitting exactly one `peer-left` to each remaining open
member of A and none to closed ones — before the standard join sequence for B
(which emits no `peer-left` at all) runs. -/
theorem c4_one_room_and_switch (es : List Event) (hok : eventsOK initState es) :
    (∀ pid A B, pid ∈ roomMembers (run initState es) A →
        pid ∈ roomMembers (run initState es) B → A = B) ∧
    (∀ pid A, pid ∈ roomMembers (run initState es) A →
        ∃ cs, mapGet (run initState es).conns pid = some cs ∧
          cs.currentRoomId = some A) ∧
    (∀ pid cs A, mapGet (run initState es).conns pid = some cs →
        cs.currentRoomId = some A →
        pid ∈ roomMembers (run initState es) A) ∧
    (∀ pid cs A B, mapGet (run initState es).conns pid = some cs →
        cs.currentRoomId = some A → A ≠ B → B ≠ "" →
        (handleMessage (run initState es) pid (ClientMsg.joinRoom (some B))).2
          = ((roomMembers (run initState es) A).filter (fun q => q ≠ pid)).filterMap
              (fun q => if isOpenIn (run initState es) q then
                  some (q, ServerMsg.peerLeft A pid (peerLeftText pid)) else none)
            ++ (joinRoomCore (leaveRoom (run initState es) pid).1 pid B).2 ∧
        (∀ q, q ∈ (roomMembers (run initState es) A).filter (fun q' => q' ≠ pid) →
            isOpenIn (run initState es) q = true →
            (((roomMembers (run initState es) A).filter (fun q' => q' ≠ pid)).filterMap
              (fun q' => if isOpenIn (run initState es) q' then
                  some (q', ServerMsg.peerLeft A pid (peerLeftText pid)) else none)).count
              (q, ServerMsg.peerLeft A pid (peerLeftText pid)) = 1) ∧
        (∀ q r p m, (q, ServerMsg.peerLeft r p m)
            ∉ (joinRoomCore (leaveRoom (run initState es) pid).1 pid B).2)) := by
  have h := inv_run es initState inv_initState hok
  refine ⟨?_, ?_, ?_, ?_⟩
  · intro pid A B hA hB
    unfold roomMembers at hA hB
    rcases hgA : mapGet (run initState es).rooms A with _ | msA
    · rw [hgA] at hA
      simp at hA
    · rw [hgA] at hA
      simp only [Option.getD_some] at hA
      rcases hgB : mapGet (run initState es).rooms B with _ | msB
      · rw [hgB] at hB
        simp at hB
      · rw [hgB] at hB
        simp only [Option.getD_some] at hB
        obtain ⟨cs1, hc1, hcur1⟩ := h.memConn A msA pid hgA hA
        obtain ⟨cs2, hc2, hcur2⟩ := h.memConn B msB pid hgB hB
        rw [hc1] at hc2
        obtain rfl := Option.some.inj hc2
        rw [hcur1] at hcur2
        exact Option.some.inj hcur2
  · intro pid A hA
    unfold roomMembers at hA
    rcases hgA : mapGet (run initState es).rooms A with _ | msA
    · rw [hgA] at hA
      simp at hA
    · rw [hgA] at hA
      simp only [Option.getD_some] at hA
      exact h.memConn A msA pid hgA hA
  · intro pid cs A hc hcur
    obtain ⟨ms, hms, hmem⟩ := h.curMem pid cs A hc hcur
    unfold roomMembers
    rw [hms]
    exact hmem
  · intro pid cs A B hc hcur hAB hB
    obtain ⟨msA, hmsA, hpidmem⟩ := h.curMem pid cs A hc hcur
    have hAne : A ≠ "" := h.ridNE A msA hmsA
    have hmembers : roomMembers (run initState es) A = msA := by
      unfold roomMembers
      rw [hmsA]
      rfl
    have hout : (handleMessage (run initState es) pid (ClientMsg.joinRoom (some B))).2
        = (leaveRoom (run initState es) pid).2
          ++ (joinRoomCore (leaveRoom (run initState es) pid).1 pid B).2 := by
      show (handleJoinRoom (run initState es) pid (some B)).2 = _
      rw [handleJoinRoom_valid _ pid B hB,
        switchLeave_other _ pid B cs A hc hcur hAne (fun e => hAB e)]
    have hleave : (leaveRoom (run initState es) pid).2
        = ((roomMembers (run initState es) A).filter (fun q => q ≠ pid)).filterMap
            (fun q => if isOpenIn (run initState es) q then
                some (q, ServerMsg.peerLeft A pid (peerLeftText pid)) else none) := by
      rw [hmembers]
      by_cases hemp : msA.filter (fun m => m ≠ pid) = []
      · rw [leaveRoom_active_empty _ pid cs A msA hc hcur
          (str_isEmpty_false hAne) hmsA hemp]
        rw [hemp]
        rfl
      · rw [leaveRoom_active_ne _ pid cs A msA hc hcur
          (str_isEmpty_false hAne) hmsA hemp]
    refine ⟨?_, ?_, ?_⟩
    · rw [hout, hleave]
    · intro q hq hopen
      rw [hmembers] at hq ⊢
      exact count_pair_filterMap_one (msA.filter (fun m => m ≠ pid))
        (fun m => isOpenIn (run initState es) m)
        (fun _ => ServerMsg.peerLeft A pid (peerLeftText pid)) q
        ((h.roomsND A msA hmsA).filter _) hq hopen
    · intro q r p m hmem
      rcases joinRoomCore_msgs_shape _ pid B _ hmem with ⟨peers, heq⟩ | ⟨a, _, heq⟩ | heq
      · simp at heq
      · simp at heq
      · simp at heq

/-- The concrete event sequence behind the C4 witness: `X` and `Z` join room
`a`. -/
def esXZa : List Event :=
  [Event.connect "X", Event.message "X" (ClientMsg.joinRoom (some "a")),
   Event.connect "Z", Event.message "Z" (ClientMsg.joinRoom (some "a"))]

/-- C4, witness: with `X` and `Z` in room `a`, `X` joining room `b` emits the
leave notifications for `a` followed by the standard join sequence for `b`. -/
theorem c4_one_room_and_switch_witness :
    (handleMessage (run initState esXZa) "X" (ClientMsg.joinRoom (some "b"))).2
      = ((roomMembers (run initState esXZa) "a").filter (fun q => q ≠ "X")).filterMap
          (fun q => if isOpenIn (run initState esXZa) q then
              some (q, ServerMsg.peerLeft "a" "X" (peerLeftText "X")) else none)
        ++ (joinRoomCore (leaveRoom (run initState esXZa) "X").1 "X" "b").2 := by
  have hok : eventsOK initState esXZa := by
    refine ⟨?_, ?_, ?_, ?_, trivial⟩
    · exact ⟨by decide, by decide⟩
    · show (mapGet (step initState (Event.connect "X")).1.conns "X").isSome = true
      decide
    · exact ⟨by decide, by decide⟩
    · show (mapGet (step (step (step initState (Event.connect "X")).1
        (Event.message "X" (ClientMsg.joinRoom (some "a")))).1
        (Event.connect "Z")).1.conns "Z").isSome = true
      decide
  have h := c4_one_room_and_switch esXZa hok
  exact (h.2.2.2 "X" { currentRoomId := some "a", isOpen := true } "a" "b"
    (by decide) rfl (by decide) (by decide)).1
